import Mathlib

/-!
Verification of the 25G OLT simulator device engine
(internal/bbsim/devices/olt.go).

The development shallowly embeds the parts of the simulator that the
specification's testable properties talk about: the Alloc-ID / GEM-port-ID
resource ledgers (four-level nested Go maps), flow admission and removal,
the OLT internal-state machine, the reboot sequence and the indication
dispatch loop.  Go maps are modelled as association lists; reading a
missing key yields the zero value (`none`), while writing through a nil
map — a Go runtime panic — is modelled by returning `none` from the whole
operation.  Machine integers are modelled as `Nat` (unsigned) and `Int`
(signed 32-bit flow fields), with the Go conversions made explicit.
-/

set_option synthInstance.maxSize 1000

namespace BBSim

/-- Association-list model of a Go map.  Keys are unique in every state
reachable by the operations below, and lookup returns the first match. -/
abbrev AMap (α β : Type) := List (α × β)

/-- Lookup of a key in a Go map; `none` models both a missing key and a
nil map (Go reads of either yield the zero value). -/
def alookup {α β : Type} [DecidableEq α] (k : α) : AMap α β → Option β
  | [] => none
  | (k', v) :: rest => if k' = k then some v else alookup k rest

/-- Assignment `m[k] = v` on a Go map: replace the binding if the key is
present, otherwise append a fresh binding. -/
def ainsert {α β : Type} [DecidableEq α] (k : α) (v : β) : AMap α β → AMap α β
  | [] => [(k, v)]
  | (k', v') :: rest => if k' = k then (k, v) :: rest else (k', v') :: ainsert k v rest

/-- The Go builtin `delete(m, k)`. -/
def aerase {α β : Type} [DecidableEq α] (k : α) : AMap α β → AMap α β
  | [] => []
  | (k', v') :: rest => if k' = k then aerase k rest else (k', v') :: aerase k rest

/-! Machine-integer conversions made explicit.  The flow message carries
signed 32-bit fields (AccessIntfId, OnuId, AllocId, GemportId) which the
ledger code converts with uint32 and int32 casts. -/

/-- The Go conversion uint32(x) applied to an int32 value. -/
def uint32OfInt32 (i : Int) : Nat := (i % 4294967296).toNat

/-- The Go conversion int32(x) applied to a uint32 value. -/
def int32OfUInt32 (n : Nat) : Int :=
  if n < 2147483648 then (n : Int) else (n : Int) - 4294967296

/-! The resource ledgers.  Both AllocIDs and GemPortIDs have the Go type
map[ponPortId]map[OnuId]map[PortNo]map[resourceId]map[FlowId]bool
(olt.go lines 114 and 116), modelled as four nested association maps. -/

/-- Innermost level: map[FlowId]bool, the set of flows referencing a
resource. -/
abbrev FlowSet := AMap Nat Bool

/-- map[resourceId]map[FlowId]bool; resource IDs (AllocId, GemportId) are
int32 in the flow message. -/
abbrev RidMap := AMap Int FlowSet

/-- map[PortNo]... level. -/
abbrev PortMap := AMap Nat RidMap

/-- map[OnuId]... level. -/
abbrev OnuMap := AMap Nat PortMap

/-- map[ponPortId]... level: a whole resource ledger. -/
abbrev Ledger := AMap Nat OnuMap

instance : DecidableEq FlowSet := inferInstance

instance : DecidableEq RidMap := inferInstance

instance : DecidableEq PortMap := inferInstance

instance : DecidableEq OnuMap := inferInstance

instance : DecidableEq Ledger := inferInstance

/-- Two-level read AllocIDs[pon][onu]; `none` models the nil map that Go
yields when either key is absent. -/
def lookup2 (L : Ledger) (p onu : Nat) : Option PortMap :=
  (alookup p L).bind (alookup onu)

/-- Core of OltDevice.storeAllocId and OltDevice.storeGemPortId
(olt.go 1776-1805 and 1840-1869; the two functions have the same effect
on their respective ledgers).  The port-number and resource-ID levels are
created if missing; if the ONU-level map is absent the Go assignment
`ledger[pon][onu][portNo] = make(...)` writes through a nil map and
panics, which is modelled by `none`. -/
def storeResource (L : Ledger) (p onu port : Nat) (rid : Int) (fid : Nat) : Option Ledger :=
  (alookup p L).bind (fun onuMap =>
    (alookup onu onuMap).map (fun portMap =>
      ainsert p (ainsert onu
        (ainsert port
          (ainsert rid
            (ainsert fid true ((alookup rid ((alookup port portMap).getD [])).getD []))
            ((alookup port portMap).getD []))
          portMap) onuMap) L))

/-- The flow message fields used by the device engine (openolt.Flow). -/
structure Flow where
  accessIntfId : Int
  onuId : Int
  uniId : Int
  flowId : Nat
  flowType : String
  allocId : Int
  gemportId : Int
  portNo : Nat
  replicateFlow : Bool
  /-- Values of the PbitToGemport map (uint32 GEM ports); only the values
  are ranged over by the source. -/
  pbitToGemport : List Nat
  deriving DecidableEq, Repr

/-- OltDevice.storeAllocId (olt.go 1776-1805). -/
def storeAllocId (L : Ledger) (f : Flow) : Option Ledger :=
  storeResource L (uint32OfInt32 f.accessIntfId) (uint32OfInt32 f.onuId) f.portNo f.allocId f.flowId

/-- OltDevice.storeGemPortId (olt.go 1840-1869). -/
def storeGemPortId (L : Ledger) (p onu port : Nat) (gemId : Int) (fid : Nat) : Option Ledger :=
  storeResource L p onu port gemId fid

/-- OltDevice.storeGemPortIdByFlow (olt.go 1871-1889): a replicated flow
stores one entry per GEM port of PbitToGemport, otherwise the single
GemportId is stored. -/
def storeGemPortIdByFlow (L : Ledger) (f : Flow) : Option Ledger :=
  if f.replicateFlow then
    f.pbitToGemport.foldl
      (fun acc gem => acc.bind (fun L' => storeGemPortId L' (uint32OfInt32 f.accessIntfId)
        (uint32OfInt32 f.onuId) f.portNo (int32OfUInt32 gem) f.flowId))
      (some L)
  else
    storeGemPortId L (uint32OfInt32 f.accessIntfId) (uint32OfInt32 f.onuId) f.portNo
      f.gemportId f.flowId

/-- One resource entry under the free loop of olt.go 1820-1837 and
1913-1930: the flow ID is deleted from the set, and the resource entry is
deleted when the set becomes empty.  The Go length check sits inside the
loop over the set, so an (unreachable) initially-empty set is kept as is.
Returns `none` when the entry is deleted. -/
def freeRidEntry (fid : Nat) (s : FlowSet) : Option FlowSet :=
  if s.isEmpty then some s
  else if (aerase fid s).isEmpty then none else some (aerase fid s)

/-- Core of OltDevice.freeAllocId and OltDevice.freeGemPortId
(olt.go 1807-1838 and 1891-1931): scan every entry of the ledger and
remove the given flow ID wherever it occurs, dropping resource entries
whose flow set empties.  The two Go functions have the same effect on
their respective ledgers. -/
def freeResource (fid : Nat) (L : Ledger) : Ledger :=
  L.map (fun pe => (pe.1, pe.2.map (fun oe => (oe.1, oe.2.map (fun pte =>
    (pte.1, pte.2.filterMap (fun re => (freeRidEntry fid re.2).map (fun s' => (re.1, s')))))))))

/-- OltDevice.freeAllocId (olt.go 1807-1838). -/
def freeAllocId (L : Ledger) (f : Flow) : Ledger := freeResource f.flowId L

/-- OltDevice.freeGemPortId (olt.go 1891-1931). -/
def freeGemPortId (L : Ledger) (f : Flow) : Ledger := freeResource f.flowId L

/-- The GEM ports a flow references: the PbitToGemport values (converted
to int32) when replication is requested, otherwise the single GemportId. -/
def gemsOfFlow (f : Flow) : List Int :=
  if f.replicateFlow then f.pbitToGemport.map int32OfUInt32 else [f.gemportId]

/-- GEM conflict test of OltDevice.validateFlow (olt.go 1946-1956): the
candidate resource ID equals one of the flow's GEM ports. -/
def gemConflict (f : Flow) (rid : Int) : Bool :=
  (gemsOfFlow f).any (fun g => rid == g)

/-- The GEM scan of OltDevice.validateFlow (olt.go 1938-1959): some
other ONU on the flow's PON has an entry for one of the flow's GEM
ports. -/
def gemBadCheck (gems : Ledger) (f : Flow) : Bool :=
  ((alookup (uint32OfInt32 f.accessIntfId) gems).getD []).any (fun oe =>
    if oe.1 = uint32OfInt32 f.onuId then false
    else oe.2.any (fun pte => pte.2.any (fun re => gemConflict f re.1)))

/-- The AllocId scan of OltDevice.validateFlow (olt.go 1961-1974): some
other ONU on the flow's PON has an entry for the flow's AllocId. -/
def allocBadCheck (allocs : Ledger) (f : Flow) : Bool :=
  ((alookup (uint32OfInt32 f.accessIntfId) allocs).getD []).any (fun oe =>
    if oe.1 = uint32OfInt32 f.onuId then false
    else oe.2.any (fun pte => pte.2.any (fun re => re.1 == f.allocId)))

/-- OltDevice.validateFlow (olt.go 1936-1977): scan both ledgers at the
flow's PON, skipping the flow's own ONU, and report a conflict when the
requested AllocId or any requested GEM port is already claimed by another
ONU.  Returns true when the flow is valid. -/
def validateFlow (gems allocs : Ledger) (f : Flow) : Bool :=
  !gemBadCheck gems f && !allocBadCheck allocs f

/-- Ledger effect of OltDevice.ActivateOnu (olt.go 1009-1010): the
per-ONU sub-map is unconditionally replaced by a fresh empty map.  If the
PON level is absent the Go assignment writes through a nil map and
panics (`none`). -/
def activateOnuLedger (L : Ledger) (p onu : Nat) : Option Ledger :=
  (alookup p L).map (fun onuMap => ainsert p (ainsert onu [] onuMap) L)

/-- Ledger effect of OltDevice.InitOlt (olt.go 340-344): the PON level of
the ledger is re-created empty for every PON index. -/
def initOltLedger (numPon : Nat) (L : Ledger) : Ledger :=
  (List.range numPon).foldl (fun acc i => ainsert i [] acc) L

/-! Observation predicates on a ledger. -/

/-- A resource ID is claimed by (pon, onu): some port of that ONU has an
entry for it. -/
def ridClaimed (L : Ledger) (p onu : Nat) (rid : Int) : Bool :=
  ((lookup2 L p onu).getD []).any (fun pte => pte.2.any (fun re => re.1 == rid))

/-- A flow ID is referenced somewhere in the ledger. -/
def flowInLedger (fid : Nat) (L : Ledger) : Bool :=
  L.any (fun pe => pe.2.any (fun oe => oe.2.any (fun pte =>
    pte.2.any (fun re => re.2.any (fun fe => fe.1 == fid)))))

/-- Every resource entry of the ledger has a non-empty flow set. -/
def allRidsNonempty (L : Ledger) : Bool :=
  L.all (fun pe => pe.2.all (fun oe => oe.2.all (fun pte =>
    pte.2.all (fun re => !re.2.isEmpty))))

/-- The ledger records no resource-ID entries at all (the PON, ONU and
port levels may still hold empty sub-maps). -/
def hasNoRids (L : Ledger) : Bool :=
  L.all (fun pe => pe.2.all (fun oe => oe.2.all (fun pte => pte.2.isEmpty)))

/-! State machines. -/

/-- Link-level operational state (§4.1 OperState, states up and down). -/
inductive UpDown
  | up
  | down
  deriving DecidableEq, Repr

/-- OperState transitions enable and disable. -/
inductive OperEvent
  | enable
  | disable
  deriving DecidableEq, Repr

/-- Modelled from the spec: getOperStateFSM lives in a source file absent
from src; §4.1 declares the OperState machine as states up, down with
side-effect-free enable (down to up) and disable (up to down) transitions,
an illegal event yielding an error and leaving the state unchanged. -/
def fireOperEvent : UpDown → OperEvent → Option UpDown
  | .down, .enable => some .up
  | .up, .disable => some .down
  | _, _ => none

/-- Firing an OperState event with the logged-and-ignored error policy of
the call sites: the state is unchanged when the transition is illegal. -/
def fireOperTotal (s : UpDown) (e : OperEvent) : UpDown := (fireOperEvent s e).getD s

/-- OLT InternalState FSM states (olt.go 62-66). -/
inductive OltIntState
  | created
  | initialized
  | enabled
  | disabled
  | deleted
  deriving DecidableEq, Repr

/-- OLT InternalState FSM events (olt.go 68-71). -/
inductive OltTx
  | txInit
  | enable
  | disable
  | delete
  deriving DecidableEq, Repr

/-- The OLT InternalState transition table exactly as declared in
olt.go 181-185: each row is (event, legal source states, destination). -/
def oltTransitions : List (OltTx × List OltIntState × OltIntState) :=
  [(.txInit, [.created, .deleted], .initialized),
   (.enable, [.initialized, .disabled], .enabled),
   (.disable, [.enabled], .disabled),
   (.delete, [.disabled, .enabled], .deleted)]

/-- Firing an event on the OLT InternalState FSM: `some dst` when the
(state, event) pair is declared in the table, `none` (a StateTransitionError
returned to the caller) otherwise.  Modelled from the spec for the
looplab/fsm library semantics (§4.1: illegal transitions fail with an
error and the state is unchanged). -/
def fireOltEvent (s : OltIntState) (e : OltTx) : Option OltIntState :=
  (oltTransitions.find? (fun t => t.1 == e && t.2.1.any (fun x => x == s))).map (fun t => t.2.2)

/-- Firing an OLT InternalState event where the caller discards the error:
the state is unchanged on an illegal pair. -/
def fireOltTotal (s : OltIntState) (e : OltTx) : OltIntState := (fireOltEvent s e).getD s

/-- Modelled from the spec: the PON InternalState machine lives in a
source file absent from src; the dispatch loop (olt.go 924, 937) fires
enable and disable events on it and the Enable flow checks for a
disabled state (olt.go 550). -/
inductive PonState
  | created
  | disabled
  | enabled
  deriving DecidableEq, Repr

/-- Modelled from the spec: PON InternalState transitions; enable from
created or disabled, disable from enabled, anything else an error that
leaves the state unchanged. -/
def firePonEvent : PonState → OperEvent → Option PonState
  | .created, .enable => some .enabled
  | .disabled, .enable => some .enabled
  | .enabled, .disable => some .disabled
  | _, _ => none

/-- ONU InternalState (§3, §4.1): created, enabled, disabled, and the
distinct pon-disabled state reflecting a parent-port outage.  Modelled
from the spec since the ONU source file is absent from src. -/
inductive OnuState
  | created
  | enabled
  | disabled
  | ponDisabled
  deriving DecidableEq, Repr

/-- Modelled from the spec: the OnuTxEnable transition moves a
non-enabled ONU to enabled. -/
def onuFsmEnable : OnuState → Option OnuState
  | .created => some .enabled
  | .disabled => some .enabled
  | .ponDisabled => some .enabled
  | .enabled => none

/-- Modelled from the spec: the OnuTxDisable transition moves an enabled
or pon-disabled ONU to disabled. -/
def onuFsmDisable : OnuState → Option OnuState
  | .enabled => some .disabled
  | .ponDisabled => some .disabled
  | _ => none

/-! Device data model. -/

/-- Messages delivered on a per-ONU channel by flow management. -/
inductive OnuMsg
  | flowAdd (ponPortId onuId : Nat) (flow : Flow)
  | flowRemoved (flow : Flow)
  deriving DecidableEq, Repr

/-- Per-ONU state visible to the OLT device engine. -/
structure Onu where
  id : Nat
  serialNumber : Nat
  ponPortId : Nat
  internalState : OnuState
  /-- onu.Flows: the flow keys stored for the ONU by FlowAdd. -/
  flows : List Nat
  /-- onu.FlowIds: flow IDs recorded by the ONU message loop; scanned by
  GetOnuByFlowId (olt.go 1391-1399). -/
  flowIds : List Nat
  /-- Messages pending on the ONU's channel. -/
  channel : List OnuMsg
  deriving DecidableEq, Repr

/-- A PON port and the ONUs it owns. -/
structure Pon where
  id : Nat
  operState : UpDown
  internalState : PonState
  onus : List Onu
  deriving DecidableEq, Repr

/-- An NNI uplink port. -/
structure Nni where
  id : Nat
  operState : UpDown
  deriving DecidableEq, Repr

/-- Events published on the device event channel (publishEvent call
sites in olt.go; the publishing helper itself is in a file absent from
src and is modelled from the spec as recording the event). -/
inductive DeviceEvent
  | flowAddReceived (pon onu : Nat)
  | flowRemoveReceived (pon onu : Nat)
  | onuActivateIndicationReceived (pon onu : Nat)
  deriving DecidableEq, Repr

/-- The OltDevice fields the verified operations read or write
(olt.go 74-120). -/
structure OltState where
  internalState : OltIntState
  operState : UpDown
  nnis : List Nni
  pons : List Pon
  allocIDs : Ledger
  gemPortIDs : Ledger
  /-- o.Flows: the device flow table (sync.Map keyed by FlowKey.ID). -/
  flows : AMap Nat Flow
  enablePerf : Bool
  events : List DeviceEvent
  /-- The reboot-epoch signature returned by HeartbeatCheck (uint32). -/
  signature : Nat
  previouslyConnected : Bool
  oltServerRunning : Bool
  /-- Whether Enable has installed a cancellable context (nil check for
  enableContextCancel). -/
  enableContextSet : Bool
  nniSpeed : Nat
  deriving DecidableEq, Repr

/-- Replace the first list element satisfying the predicate (Go code
finds the element by pointer and mutates it in place). -/
def updateFirst {α : Type} (p : α → Bool) (f : α → α) : List α → List α
  | [] => []
  | x :: rest => if p x then f x :: rest else x :: updateFirst p f rest

/-- OltDevice.GetPonById (olt.go 700-707): first PON with the given ID. -/
def getPonById (st : OltState) (id : Nat) : Option Pon :=
  st.pons.find? (fun pon => pon.id == id)

/-- OltDevice.getNniById (olt.go 709-716). -/
def getNniById (st : OltState) (id : Nat) : Option Nni :=
  st.nnis.find? (fun nni => nni.id == id)

/-- PonPort.GetOnuById: first ONU of the PON with the given ID (the PON
source file is absent from src; modelled from the spec's per-PON ONU
collection). -/
def getOnuById (pon : Pon) (id : Nat) : Option Onu :=
  pon.onus.find? (fun onu => onu.id == id)

/-- PonPort.GetOnuBySn, modelled from the spec like getOnuById. -/
def getOnuBySn (pon : Pon) (sn : Nat) : Option Onu :=
  pon.onus.find? (fun onu => onu.serialNumber == sn)

/-- Update the first ONU with the given ID on the first PON with the
given ID, as the Go code does through the pointers returned by
GetPonById / GetOnuById. -/
def updateOnu (st : OltState) (ponId onuId : Nat) (f : Onu → Onu) : OltState :=
  {st with pons := (updateFirst (fun pon => pon.id == ponId)
    (fun pon => {pon with onus := (updateFirst (fun onu => onu.id == onuId) f pon.onus)})
    st.pons)}

/-- OltDevice.GetOnuByFlowId (olt.go 1391-1402): first ONU (scanning PONs
then ONUs in order) whose FlowIds list contains the flow ID. -/
def getOnuByFlowId (st : OltState) (fid : Nat) : Option Onu :=
  (st.pons.find? (fun pon => pon.onus.any (fun onu => onu.flowIds.any (fun x => x == fid)))).bind
    (fun pon => pon.onus.find? (fun onu => onu.flowIds.any (fun x => x == fid)))

/-- Update the ONU located by getOnuByFlowId. -/
def updateOnuByFlowId (st : OltState) (fid : Nat) (f : Onu → Onu) : OltState :=
  {st with pons := (updateFirst (fun pon => pon.onus.any (fun onu => onu.flowIds.any (fun x => x == fid)))
    (fun pon => {pon with onus := (updateFirst (fun onu => onu.flowIds.any (fun x => x == fid)) f pon.onus)})
    st.pons)}

/-! Flow management (§4.4). -/

/-- Outcome of OltDevice.FlowAdd, classifying its return paths. -/
inductive FlowAddResult
  /-- Per-ONU flow accepted and enqueued. -/
  | ok
  /-- AccessIntfId is -1: OLT-scoped flow, logged only. -/
  | okOltFlow
  /-- Multicast flow, logged only. -/
  | okMulticast
  /-- The ONU lookup failed (error returned, olt.go 1237). -/
  | errOnuNotFound
  /-- The ONU is disabled or pon-disabled (error returned, olt.go 1251). -/
  | errOnuNotReady
  /-- validateFlow reported a resource conflict (error returned, olt.go 1271). -/
  | errConflict
  deriving DecidableEq, Repr

/-- OltDevice.FlowAdd (olt.go 1180-1289).  `none` models the runtime
panics of the source: dereferencing the nil PON after an ignored
GetPonById error, and the ledger stores writing through a nil ONU-level
map. -/
def flowAdd (st : OltState) (f : Flow) : Option (OltState × FlowAddResult) :=
  let st0 := if st.enablePerf then st else {st with flows := ainsert f.flowId f st.flows}
  if f.accessIntfId = -1 then some (st0, .okOltFlow)
  else if f.flowType = "multicast" then some (st0, .okMulticast)
  else
    match getPonById st0 (uint32OfInt32 f.accessIntfId) with
    | none => none
    | some pon =>
      match getOnuById pon (uint32OfInt32 f.onuId) with
      | none => some (st0, .errOnuNotFound)
      | some onu =>
        if onu.internalState = .ponDisabled ∨ onu.internalState = .disabled then
          some (st0, .errOnuNotReady)
        else
          let st1 :=
            if st.enablePerf then st0
            else
              let st' := updateOnu st0 pon.id onu.id
                (fun o => {o with flows := o.flows ++ [f.flowId]})
              if onu.flows.length + 1 = 1 then
                {st' with events := (st'.events ++ [.flowAddReceived onu.ponPortId onu.id])}
              else st'
          if validateFlow st1.gemPortIDs st1.allocIDs f = false then
            some (st1, .errConflict)
          else
            match storeGemPortIdByFlow st1.gemPortIDs f with
            | none => none
            | some gems =>
              match storeAllocId st1.allocIDs f with
              | none => none
              | some allocs =>
                let st2 := {st1 with gemPortIDs := gems, allocIDs := allocs}
                some (updateOnu st2 pon.id onu.id
                  (fun o => {o with channel := (o.channel ++ [OnuMsg.flowAdd pon.id onu.id f])}),
                  .ok)

/-- Outcome of OltDevice.FlowRemove. -/
inductive FlowRemoveResult
  /-- Removal accepted (including the logged-only early exits). -/
  | ok
  /-- Strict bookkeeping found no stored flow (codes.NotFound, olt.go 1317). -/
  | errNotFound
  /-- GetOnuByFlowId failed for a per-ONU flow (error returned, olt.go 1368). -/
  | errOnuNotFound
  deriving DecidableEq, Repr

/-- Tail of OltDevice.FlowRemove (olt.go 1351-1380): classify the flow
and, for a per-ONU flow, enqueue a removal message on the owning ONU's
channel, locating the owner by flow ID. -/
def flowRemoveTail (st : OltState) (f : Flow) : OltState × FlowRemoveResult :=
  if f.accessIntfId = -1 then (st, .ok)
  else if f.flowType = "multicast" then (st, .ok)
  else
    match getOnuByFlowId st f.flowId with
    | none => (st, .errOnuNotFound)
    | some _ =>
      (updateOnuByFlowId st f.flowId
        (fun o => {o with channel := (o.channel ++ [OnuMsg.flowRemoved f])}), .ok)

/-- OltDevice.FlowRemove (olt.go 1292-1381): both ledgers are freed
unconditionally first; under strict bookkeeping (enablePerf false) the
stored flow is then looked up — a missing entry returns NotFound with the
frees already applied — removed from the owning ONU's list (DeleteFlow is
modelled from the spec as removing the key from the list) and from the
device flow table; finally the removal is forwarded to the owning ONU. -/
def flowRemove (st : OltState) (f : Flow) : OltState × FlowRemoveResult :=
  let stf := {st with gemPortIDs := freeGemPortId st.gemPortIDs f,
                      allocIDs := freeAllocId st.allocIDs f}
  if stf.enablePerf then flowRemoveTail stf f
  else
    match alookup f.flowId stf.flows with
    | none => (stf, .errNotFound)
    | some storedFlow =>
      if storedFlow.accessIntfId ≠ -1 then
        match getPonById stf (uint32OfInt32 storedFlow.accessIntfId) with
        | none => (stf, .ok)
        | some pon =>
          match getOnuById pon (uint32OfInt32 storedFlow.onuId) with
          | none => (stf, .ok)
          | some onu =>
            let st1 : OltState := updateOnu stf pon.id onu.id
              (fun o => {o with flows := (o.flows.filter (fun k => k ≠ f.flowId))})
            let st2 := {st1 with events := (st1.events ++ [DeviceEvent.flowRemoveReceived onu.ponPortId onu.id])}
            flowRemoveTail {st2 with flows := aerase f.flowId st2.flows} f
      else
        flowRemoveTail {stf with flows := aerase f.flowId stf.flows} f

/-- OltDevice.HeartbeatCheck (olt.go 1383-1389): returns the current
device signature. -/
def heartbeatCheck (st : OltState) : Nat := st.signature

/-- OltDevice.ActivateOnu (olt.go 1004-1032): both per-ONU ledger
sub-maps are unconditionally replaced with fresh empty maps, the ONU is
found by serial number, gets its numeric ID and is transitioned to
enabled (a failed transition is only logged).  `none` models the panics
on a missing PON level or a missing PON/ONU. -/
def activateOnu (st : OltState) (intfId onuId serial : Nat) : Option OltState :=
  match activateOnuLedger st.allocIDs intfId onuId with
  | none => none
  | some allocs =>
    match activateOnuLedger st.gemPortIDs intfId onuId with
    | none => none
    | some gems =>
      let st1 := {st with allocIDs := allocs, gemPortIDs := gems}
      match getPonById st1 intfId with
      | none => none
      | some pon =>
        match getOnuBySn pon serial with
        | none => none
        | some onu =>
          let st2 := {st1 with events := (st1.events ++ [DeviceEvent.onuActivateIndicationReceived intfId onuId])}
          some {st2 with pons := (updateFirst (fun p2 => p2.id == intfId)
            (fun p2 => {p2 with onus := (updateFirst (fun o => o.serialNumber == serial)
              (fun o => {o with id := onuId, internalState := (onuFsmEnable onu.internalState).getD onu.internalState})
              p2.onus)})
            st2.pons)}

/-! Reboot sequence (§4.5). -/

/-- OltDevice.clearAllResources (olt.go 1981-1997): both flow ledgers are
reset to empty maps.  The per-PON OMCI resource maps it also clears live
in a source file absent from src and are outside the two ledgers
modelled here. -/
def clearAllResources (st : OltState) : OltState :=
  {st with gemPortIDs := ([] : Ledger), allocIDs := ([] : Ledger)}

/-- OltDevice.InitOlt (olt.go 321-345): fails fatally when the gRPC
server is already running, forces the first NNI down (an empty NNI slice
would panic on indexing), and re-creates the PON level of both ledgers
for every PON index. -/
def initOlt (st : OltState) : Option OltState :=
  if st.oltServerRunning then none
  else
    let st1 := {st with oltServerRunning := true}
    match st1.nnis with
    | [] => none
    | nni :: rest =>
      let st2 := {st1 with nnis := ({nni with operState := UpDown.down} :: rest)}
      some {st2 with allocIDs := initOltLedger st2.pons.length st2.allocIDs,
                     gemPortIDs := initOltLedger st2.pons.length st2.gemPortIDs}

/-- OltDevice.RestartOLT (olt.go 347-439).  The delete transition's
enter-state callback clears the ledgers; every ONU is sent a disable
event (its error is only logged) on both the soft- and hard-reboot
branches, which differ only in logging; the gRPC server is stopped, the
session context cancelled (a nil cancel function would panic), the
signature regenerated from the wall clock (uint32 of the Unix time
`now`), and an initialize transition re-runs InitOlt.  The Bool result is
true when RestartOLT returns an error. -/
def restartOLT (st : OltState) (now : Nat) : Option (OltState × Bool) :=
  let st0 := {st with previouslyConnected := false}
  match fireOltEvent st0.internalState .delete with
  | none => some (st0, true)
  | some s1 =>
    let st1 := clearAllResources {st0 with internalState := s1}
    let st2 := {st1 with pons := (st1.pons.map (fun (pon : Pon) =>
      {pon with onus := (pon.onus.map (fun (onu : Onu) =>
        {onu with internalState := (onuFsmDisable onu.internalState).getD onu.internalState}))}))}
    let st3 := {st2 with oltServerRunning := false}
    if st3.enableContextSet = false then none
    else
      let st4 := {st3 with signature := now % 4294967296}
      match fireOltEvent st4.internalState .txInit with
      | none => some (st4, true)
      | some s2 => (initOlt {st4 with internalState := s2}).map (fun st5 => (st5, false))

/-! Indication dispatch loop (§4.2). -/

/-- Messages consumed by processOltMessages (types.Message tags handled
by the loop). -/
inductive Msg
  | oltIndication (operState : UpDown)
  | alarmIndication (payload : Nat)
  | nniIndication (operState : UpDown) (nniPortId : Nat)
  | ponIndication (operState : UpDown) (ponPortId : Nat)
  deriving DecidableEq, Repr

/-- Protocol indications emitted on the stream. -/
inductive Indication
  | oltInd (operState : UpDown)
  | alarmInd (payload : Nat)
  | nniOperInd (intfId : Nat) (operState : UpDown) (speed : Nat)
  | ponIntfInd (intfId : Nat) (operState : UpDown)
  | ponOperInd (intfId : Nat) (operState : UpDown)
  deriving DecidableEq, Repr

/-- OltDevice.sendPonIndication (olt.go 782-819): an IntfIndication then
an IntfOperIndication, both carrying the PON's current OperState. -/
def sendPonIndication (pon : Pon) : List Indication :=
  [.ponIntfInd pon.id pon.operState, .ponOperInd pon.id pon.operState]

/-- The OperEvent fired for an up/down message. -/
def operEventOf : UpDown → OperEvent
  | .up => .enable
  | .down => .disable

/-- One iteration of OltDevice.processOltMessages (olt.go 897-946):
dispatch on the message tag, apply FSM transitions (their errors are
logged and discarded) and emit the message's indications.  An OLT
indication fires InternalState then OperState and always emits the
message's operational state; an alarm is forwarded verbatim; an NNI
indication fires the NNI OperState and emits its post-transition state
with the configured speed; a PON indication fires the PON OperState and
InternalState — the PON indications themselves are emitted by the PON
FSM's enter-state callback, modelled from the spec since that source
file is absent from src, hence emitted exactly when the InternalState
transition applies.  `none` models the nil dereference on an unknown
NNI or PON ID. -/
def processOltMessage (st : OltState) (m : Msg) : Option (OltState × List Indication) :=
  match m with
  | .oltIndication oper =>
    let tx : OltTx := match oper with | .up => .enable | .down => .disable
    let st1 := {st with internalState := fireOltTotal st.internalState tx,
                        operState := fireOperTotal st.operState (operEventOf oper)}
    some (st1, [.oltInd oper])
  | .alarmIndication payload => some (st, [.alarmInd payload])
  | .nniIndication oper nniId =>
    match getNniById st nniId with
    | none => none
    | some nni =>
      let nni1 := {nni with operState := fireOperTotal nni.operState (operEventOf oper)}
      let st1 := {st with nnis := (updateFirst (fun n => n.id == nniId) (fun _ => nni1) st.nnis)}
      some (st1, [.nniOperInd nni1.id nni1.operState st.nniSpeed])
  | .ponIndication oper ponId =>
    match getPonById st ponId with
    | none => none
    | some pon =>
      let pon1 := {pon with operState := fireOperTotal pon.operState (operEventOf oper)}
      match firePonEvent pon1.internalState (operEventOf oper) with
      | none =>
        some ({st with pons := (updateFirst (fun p2 => p2.id == ponId) (fun _ => pon1) st.pons)}, [])
      | some ps =>
        let pon2 := {pon1 with internalState := ps}
        some ({st with pons := (updateFirst (fun p2 => p2.id == ponId) (fun _ => pon2) st.pons)},
          sendPonIndication pon2)

/-- OltDevice.processOltMessages (olt.go 866-953): the single dispatch
loop drains the channel, consuming each message exactly once in order
and emitting its indications before touching the next message. -/
def processOltMessages (st : OltState) : List Msg → Option (OltState × List Indication)
  | [] => some (st, [])
  | m :: rest =>
    match processOltMessage st m with
    | none => none
    | some (st1, t1) =>
      match processOltMessages st1 rest with
      | none => none
      | some (st2, t2) => some (st2, t1 ++ t2)

/-! Concrete inputs used to instantiate the claims on closed values. -/

def witFlow1 : Flow :=
  { accessIntfId := 0, onuId := 1, uniId := 0, flowId := 7, flowType := "", allocId := 100,
    gemportId := 50, portNo := 16, replicateFlow := false, pbitToGemport := [] }

def witFlow2 : Flow :=
  { accessIntfId := 0, onuId := 2, uniId := 0, flowId := 8, flowType := "", allocId := 100,
    gemportId := 60, portNo := 32, replicateFlow := false, pbitToGemport := [] }

def witLedger0 : Ledger := [(0, [(1, []), (2, [])])]

def witOnu1 : Onu :=
  { id := 1, serialNumber := 11, ponPortId := 0, internalState := .enabled, flows := [],
    flowIds := [], channel := [] }

def witOnu2 : Onu :=
  { id := 2, serialNumber := 12, ponPortId := 0, internalState := .enabled, flows := [],
    flowIds := [], channel := [] }

def witPon : Pon := { id := 0, operState := .down, internalState := .created, onus := [witOnu1, witOnu2] }

def witState : OltState :=
  { internalState := .enabled, operState := .up, nnis := [{ id := 0, operState := .up }],
    pons := [witPon],
    allocIDs := [(0, [(1, [(16, [(100, [(7, true)])])]), (2, [])])],
    gemPortIDs := [(0, [(1, [(16, [(50, [(7, true)])])]), (2, [])])],
    flows := [], enablePerf := false, events := [], signature := 100,
    previouslyConnected := false, oltServerRunning := true, enableContextSet := true,
    nniSpeed := 25000 }

/-- The ONU flow list visible at a (PON id, ONU id) address. -/
def onuFlowsAt (st : OltState) (ponId onuId : Nat) : List Nat :=
  (((getPonById st ponId).bind (fun pon => getOnuById pon onuId)).map Onu.flows).getD []

/-- The ONU channel content visible at a (PON id, ONU id) address. -/
def onuChannelAt (st : OltState) (ponId onuId : Nat) : List OnuMsg :=
  (((getPonById st ponId).bind (fun pon => getOnuById pon onuId)).map Onu.channel).getD []

def witOnu2Down : Onu :=
  { id := 2, serialNumber := 12, ponPortId := 0, internalState := .disabled, flows := [],
    flowIds := [], channel := [] }

def witStateDown : OltState :=
  {witState with pons := [{witPon with onus := [witOnu1, witOnu2Down]}]}

/-- The bookkeeping stage FlowAdd performs before validating under
strict flow accounting: store the flow in the device flow table, append
the flow key to the target ONU flow list, and publish the first-flow
event when the list was empty. -/
def flowAddBookkeep (st : OltState) (f : Flow) (pon : Pon) (onu : Onu) : OltState :=
  if onu.flows.length + 1 = 1 then
    {(updateOnu {st with flows := ainsert f.flowId f st.flows} pon.id onu.id
       (fun o => {o with flows := (o.flows ++ [f.flowId])})) with
     events := ((updateOnu {st with flows := ainsert f.flowId f st.flows} pon.id onu.id
       (fun o => {o with flows := (o.flows ++ [f.flowId])})).events ++
       [DeviceEvent.flowAddReceived onu.ponPortId onu.id])}
  else
    updateOnu {st with flows := ainsert f.flowId f st.flows} pon.id onu.id
      (fun o => {o with flows := (o.flows ++ [f.flowId])})

/-- Initial state for the dispatch-order example: OLT initialized and
down, one NNI down, one PON created and down. -/
def dispState : OltState :=
  {witState with
   internalState := .initialized,
   operState := .down,
   nnis := [{ id := 0, operState := .down }]}

def witRebootState : OltState := {witState with internalState := .disabled, operState := .down}

def witRebootResult : OltState :=
  { internalState := .initialized, operState := .down,
    nnis := [{ id := 0, operState := .down }],
    pons := [{ id := 0, operState := .down, internalState := .created,
               onus := [{ id := 1, serialNumber := 11, ponPortId := 0,
                          internalState := .disabled, flows := [], flowIds := [],
                          channel := [] },
                        { id := 2, serialNumber := 12, ponPortId := 0,
                          internalState := .disabled, flows := [], flowIds := [],
                          channel := [] }] }],
    allocIDs := [(0, [])], gemPortIDs := [(0, [])], flows := [], enablePerf := false,
    events := [], signature := 105, previouslyConnected := false,
    oltServerRunning := true, enableContextSet := true, nniSpeed := 25000 }

def witActivated : OltState :=
  (activateOnu witState 0 2 12).getD witState

/-! Sequences of ledger operations (C3). -/

/-- One operation on a resource ledger: a store (as performed by
storeAllocId / storeGemPortId) or a free (as performed by freeAllocId /
freeGemPortId). -/
inductive LedgerOp
  | store (p onu port : Nat) (rid : Int) (fid : Nat)
  | free (fid : Nat)
  deriving DecidableEq, Repr

/-- Run a sequence of ledger operations; `none` when a store panics. -/
def runLedgerOps (L : Ledger) : List LedgerOp → Option Ledger
  | [] => some L
  | (.store p onu port rid fid) :: rest =>
    (storeResource L p onu port rid fid).bind (fun L2 => runLedgerOps L2 rest)
  | (.free fid) :: rest => runLedgerOps (freeResource fid L) rest

/-- Whether an operation is a store of the given flow ID. -/
def isStoreOf (f : Nat) : LedgerOp → Bool
  | .store _ _ _ _ fid => fid == f
  | .free _ => false

/-- Every store of flow f in the sequence is followed, strictly later, by
a free of f.  A sequence in which every store is matched by exactly one
later free satisfies this for every flow. -/
def balancedFor (f : Nat) : List LedgerOp → Prop
  | [] => True
  | op :: rest => (isStoreOf f op = true → (LedgerOp.free f) ∈ rest) ∧ balancedFor f rest

def witOps : List LedgerOp := [.store 0 1 0 100 7, .free 7]

def witLedgerInit : Ledger := [(0, [(1, [])])]

/-! Cross-ONU uniqueness machinery (C9). -/

/-- No Alloc-ID or GEM-port-ID belongs to two different ONUs on one PON. -/
def NoCrossOnuDup (L : Ledger) : Prop :=
  ∀ p o1 o2 r, o1 ≠ o2 → ridClaimed L p o1 r = true → ridClaimed L p o2 r = true → False

/-- The ledger-pair invariant of §3: every resource entry has a
non-empty flow set, and no resource ID is claimed by two ONUs of one
PON, for the GEM ledger and the Alloc ledger respectively. -/
def LedgerInv (s : Ledger × Ledger) : Prop :=
  allRidsNonempty s.1 = true ∧ allRidsNonempty s.2 = true ∧
  NoCrossOnuDup s.1 ∧ NoCrossOnuDup s.2

/-- The ledger-mutating operations of the device engine, with flows
admitted only through a validated FlowAdd: the (GEM, Alloc) ledger pair
evolves by validated stores, frees, the reboot clear, and ActivateOnu
resets. -/
inductive LedgerStep : (Ledger × Ledger) → (Ledger × Ledger) → Prop where
  | addFlow : ∀ (gems allocs gems' allocs' : Ledger) (f : Flow),
      validateFlow gems allocs f = true →
      storeGemPortIdByFlow gems f = some gems' →
      storeAllocId allocs f = some allocs' →
      LedgerStep (gems, allocs) (gems', allocs')
  | removeFlow : ∀ (gems allocs : Ledger) (f : Flow),
      LedgerStep (gems, allocs) (freeGemPortId gems f, freeAllocId allocs f)
  | clear : ∀ (gems allocs : Ledger), LedgerStep (gems, allocs) (([] : Ledger), ([] : Ledger))
  | activate : ∀ (gems allocs gems' allocs' : Ledger) (p o : Nat),
      activateOnuLedger allocs p o = some allocs' →
      activateOnuLedger gems p o = some gems' →
      LedgerStep (gems, allocs) (gems', allocs')

def witGems1 : Ledger := [(0, [(1, [(16, [(50, [(7, true)])])]), (2, [])])]

def witAllocs1 : Ledger := [(0, [(1, [(16, [(100, [(7, true)])])]), (2, [])])]

/-! ### Theorems -/

theorem alookup_ainsert_self {α β : Type} [DecidableEq α] (k : α) (v : β) (m : AMap α β) :
    alookup k (ainsert k v m) = some v := by
  induction m with
  | nil => simp [ainsert, alookup]
  | cons hd tl ih =>
    by_cases h : hd.1 = k
    · simp [ainsert, alookup, h]
    · simp [ainsert, alookup, h, ih]

theorem alookup_ainsert_ne {α β : Type} [DecidableEq α] {k k' : α} (v : β) (m : AMap α β)
    (h : k' ≠ k) : alookup k' (ainsert k v m) = alookup k' m := by
  induction m with
  | nil => simp [ainsert, alookup, Ne.symm h]
  | cons hd tl ih =>
    obtain ⟨a, b⟩ := hd
    by_cases hk : a = k
    · subst hk
      simp [ainsert, alookup, Ne.symm h]
    · simp only [ainsert, if_neg hk, alookup]
      rw [ih]

theorem alookup_mem {α β : Type} [DecidableEq α] {k : α} {v : β} {m : AMap α β}
    (h : alookup k m = some v) : (k, v) ∈ m := by
  induction m with
  | nil => simp [alookup] at h
  | cons hd tl ih =>
    obtain ⟨a, b⟩ := hd
    by_cases hk : a = k
    · simp [alookup, hk] at h
      subst hk
      subst h
      exact List.mem_cons_self _ _
    · simp [alookup, hk] at h
      exact List.mem_cons_of_mem _ (ih h)

theorem mem_ainsert_self {α β : Type} [DecidableEq α] (k : α) (v : β) (m : AMap α β) :
    (k, v) ∈ ainsert k v m := by
  induction m with
  | nil => simp [ainsert]
  | cons hd tl ih =>
    by_cases hk : hd.1 = k
    · simp [ainsert, hk]
    · simp [ainsert, hk]
      right
      exact ih

theorem mem_ainsert {α β : Type} [DecidableEq α] {x : α × β} {k : α} {v : β} {m : AMap α β}
    (h : x ∈ ainsert k v m) : x ∈ m ∨ x = (k, v) := by
  induction m with
  | nil => simp [ainsert] at h; right; exact h
  | cons hd tl ih =>
    by_cases hk : hd.1 = k
    · simp [ainsert, hk] at h
      rcases h with h | h
      · right; exact h
      · left; exact List.mem_cons_of_mem _ h
    · simp [ainsert, hk] at h
      rcases h with h | h
      · left; simp [h]
      · rcases ih h with h2 | h2
        · left; exact List.mem_cons_of_mem _ h2
        · right; exact h2

theorem mem_ainsert_of_mem_ne {α β : Type} [DecidableEq α] {x : α × β} {k : α} {v : β}
    {m : AMap α β} (h : x ∈ m) (hne : x.1 ≠ k) : x ∈ ainsert k v m := by
  induction m with
  | nil => simp at h
  | cons hd tl ih =>
    by_cases hk : hd.1 = k
    · simp [ainsert, hk]
      rcases List.mem_cons.mp h with h | h
      · exfalso; apply hne; rw [h]; exact hk
      · right; exact h
    · simp [ainsert, hk]
      rcases List.mem_cons.mp h with h | h
      · left; exact h
      · right; exact ih h

/-- Key-presence (`k` occurs as a key of `m`) is preserved by assignments:
an assignment only replaces a value or adds a new key. -/
theorem anyKey_ainsert_mono {α β : Type} [DecidableEq α] {r k : α} {v : β} {m : AMap α β}
    (h : m.any (fun e => e.1 == r) = true) :
    (ainsert k v m).any (fun e => e.1 == r) = true := by
  induction m with
  | nil => simp at h
  | cons hd tl ih =>
    by_cases hk : hd.1 = k
    · simp [ainsert, hk]
      simp at h
      rcases h with h | h
      · left; rw [← hk]; exact h
      · right; exact h
    · simp [ainsert, hk]
      simp at h
      rcases h with h | h
      · left; exact h
      · right
        have := ih (by simp [h])
        simpa using this

theorem anyKey_ainsert_elim {α β : Type} [DecidableEq α] {r k : α} {v : β} {m : AMap α β}
    (h : (ainsert k v m).any (fun e => e.1 == r) = true) :
    m.any (fun e => e.1 == r) = true ∨ r = k := by
  rcases List.any_eq_true.mp h with ⟨x, hx, hpx⟩
  rcases mem_ainsert hx with hm | he
  · left; exact List.any_eq_true.mpr ⟨x, hm, hpx⟩
  · right
    have : x.1 = r := by simpa using hpx
    rw [he] at this
    exact this.symm

/-- Erasing a key removes every binding of that key. -/
theorem anyKey_aerase_self {α β : Type} [DecidableEq α] (k : α) (m : AMap α β) :
    (aerase k m).any (fun e => e.1 == k) = false := by
  induction m with
  | nil => simp [aerase]
  | cons hd tl ih =>
    by_cases hk : hd.1 = k
    · simp [aerase, hk, ih]
    · simp [aerase, hk, ih]

theorem mem_aerase {α β : Type} [DecidableEq α] {x : α × β} {k : α} {m : AMap α β}
    (h : x ∈ aerase k m) : x ∈ m := by
  induction m with
  | nil => simp [aerase] at h
  | cons hd tl ih =>
    by_cases hk : hd.1 = k
    · simp [aerase, hk] at h
      exact List.mem_cons_of_mem _ (ih h)
    · simp [aerase, hk] at h
      rcases h with h | h
      · simp [h]
      · exact List.mem_cons_of_mem _ (ih h)

theorem all_ainsert {α β : Type} [DecidableEq α] {q : α × β → Bool} {k : α} {v : β}
    {m : AMap α β} (hm : m.all q = true) (hv : q (k, v) = true) :
    (ainsert k v m).all q = true := by
  rw [List.all_eq_true] at hm ⊢
  intro x hx
  rcases mem_ainsert hx with h | h
  · exact hm x h
  · rw [h]; exact hv

/-- Updating the value at a key with a key-preserving step keeps any
satisfied entry predicate satisfied, for predicates stable under the
step at that key. -/
theorem any_ainsert_step {α β : Type} [DecidableEq α] (q : α × β → Bool) (k : α)
    (step : β → β) (d : β) (m : AMap α β)
    (hstep : ∀ v, q (k, v) = true → q (k, step v) = true)
    (h : m.any q = true) :
    (ainsert k (step ((alookup k m).getD d)) m).any q = true := by
  induction m with
  | nil => simp at h
  | cons hd tl ih =>
    obtain ⟨a, b⟩ := hd
    by_cases hk : a = k
    · subst hk
      simp only [alookup, if_pos rfl, Option.getD_some, ainsert, if_pos rfl]
      simp only [List.any_cons] at h ⊢
      rcases Bool.or_eq_true_iff.mp h with h | h
      · have := hstep b h
        simp [this]
      · simp [h]
    · simp only [alookup, if_neg hk, ainsert, if_neg hk]
      simp only [List.any_cons] at h ⊢
      rcases Bool.or_eq_true_iff.mp h with h | h
      · simp [h]
      · simp [ih h]

/-- A successful store records the resource as claimed by its (PON, ONU). -/
theorem storeResource_claims {L L' : Ledger} {p onu port : Nat} {rid : Int} {fid : Nat}
    (h : storeResource L p onu port rid fid = some L') :
    ridClaimed L' p onu rid = true := by
  unfold storeResource at h
  cases hp : alookup p L with
  | none => rw [hp, Option.none_bind] at h; exact absurd h (by simp)
  | some onuMap =>
    rw [hp, Option.some_bind] at h
    cases ho : alookup onu onuMap with
    | none => rw [ho] at h; exact absurd h (by simp)
    | some portMap =>
      rw [ho, Option.map_some'] at h
      simp only [Option.some.injEq] at h
      subst h
      unfold ridClaimed lookup2
      rw [alookup_ainsert_self, Option.some_bind, alookup_ainsert_self]
      refine List.any_eq_true.mpr ⟨_, mem_ainsert_self port _ _, ?_⟩
      exact List.any_eq_true.mpr ⟨_, mem_ainsert_self rid _ _, by simp⟩

/-- A successful store preserves every existing resource claim. -/
theorem storeResource_claims_mono {L L' : Ledger} {p onu port : Nat} {rid : Int} {fid : Nat}
    {p2 o2 : Nat} {r2 : Int}
    (h : storeResource L p onu port rid fid = some L')
    (hc : ridClaimed L p2 o2 r2 = true) :
    ridClaimed L' p2 o2 r2 = true := by
  unfold storeResource at h
  cases hp : alookup p L with
  | none => rw [hp, Option.none_bind] at h; exact absurd h (by simp)
  | some onuMap =>
    rw [hp, Option.some_bind] at h
    cases ho : alookup onu onuMap with
    | none => rw [ho] at h; exact absurd h (by simp)
    | some portMap =>
      rw [ho, Option.map_some'] at h
      simp only [Option.some.injEq] at h
      subst h
      unfold ridClaimed lookup2 at hc ⊢
      by_cases hpp : p2 = p
      · subst hpp
        rw [alookup_ainsert_self, Option.some_bind]
        rw [hp, Option.some_bind] at hc
        by_cases hoo : o2 = onu
        · subst hoo
          rw [alookup_ainsert_self]
          rw [ho] at hc
          have hstep : ∀ v : RidMap,
              (fun pte : Nat × RidMap => pte.2.any (fun re => re.1 == r2)) (port, v) = true →
              (fun pte : Nat × RidMap => pte.2.any (fun re => re.1 == r2))
                (port, ainsert rid (ainsert fid true ((alookup rid v).getD [])) v) = true := by
            intro v hv
            exact anyKey_ainsert_mono hv
          exact any_ainsert_step _ port
            (fun v => ainsert rid (ainsert fid true ((alookup rid v).getD [])) v) [] portMap
            hstep hc
        · rw [alookup_ainsert_ne _ _ hoo]
          exact hc
      · rw [alookup_ainsert_ne _ _ hpp]
        exact hc

/-- The replicated-store fold fails whenever its accumulator is already
dead. -/
theorem foldStores_none {p onu port : Nat} {fid : Nat} (gems : List Nat) :
    gems.foldl (fun acc gem => acc.bind (fun L2 =>
      storeGemPortId L2 p onu port (int32OfUInt32 gem) fid)) none = none := by
  induction gems with
  | nil => rfl
  | cons g rest ih => simpa using ih

/-- The replicated-store fold preserves every existing claim. -/
theorem foldStores_mono {p onu port : Nat} {fid : Nat} {gems : List Nat}
    {L L' : Ledger} {p2 o2 : Nat} {r2 : Int}
    (h : gems.foldl (fun acc gem => acc.bind (fun L2 =>
      storeGemPortId L2 p onu port (int32OfUInt32 gem) fid)) (some L) = some L')
    (hc : ridClaimed L p2 o2 r2 = true) :
    ridClaimed L' p2 o2 r2 = true := by
  induction gems generalizing L with
  | nil => simp at h; subst h; exact hc
  | cons g rest ih =>
    simp only [List.foldl_cons, Option.some_bind] at h
    cases hs : storeGemPortId L p onu port (int32OfUInt32 g) fid with
    | none => rw [hs] at h; rw [foldStores_none] at h; exact absurd h (by simp)
    | some L1 =>
      rw [hs] at h
      exact ih h (storeResource_claims_mono hs hc)

/-- Every GEM port passed through the replicated-store fold ends up
claimed. -/
theorem foldStores_claims_each {p onu port : Nat} {fid : Nat} {lst : List Nat}
    {L L' : Ledger}
    (h : lst.foldl (fun acc gem => acc.bind (fun L2 =>
      storeGemPortId L2 p onu port (int32OfUInt32 gem) fid)) (some L) = some L') :
    ∀ n ∈ lst, ridClaimed L' p onu (int32OfUInt32 n) = true := by
  induction lst generalizing L with
  | nil => simp
  | cons x rest ih =>
    simp only [List.foldl_cons, Option.some_bind] at h
    cases hs : storeGemPortId L p onu port (int32OfUInt32 x) fid with
    | none => rw [hs] at h; rw [foldStores_none] at h; exact absurd h (by simp)
    | some L1 =>
      rw [hs] at h
      intro n hn
      rcases List.mem_cons.mp hn with hx | hx
      · subst hx
        exact foldStores_mono h (storeResource_claims hs)
      · exact ih h n hx

/-- Every GEM port referenced by the flow is claimed after a successful
storeGemPortIdByFlow. -/
theorem storeGemPortIdByFlow_claims {G G' : Ledger} {f : Flow}
    (h : storeGemPortIdByFlow G f = some G') :
    ∀ g ∈ gemsOfFlow f,
      ridClaimed G' (uint32OfInt32 f.accessIntfId) (uint32OfInt32 f.onuId) g = true := by
  unfold storeGemPortIdByFlow at h
  by_cases hrep : f.replicateFlow
  · rw [if_pos hrep] at h
    intro g hg
    unfold gemsOfFlow at hg
    rw [if_pos hrep] at hg
    obtain ⟨n, hn, rfl⟩ := List.mem_map.mp hg
    exact foldStores_claims_each h n hn
  · rw [if_neg hrep] at h
    intro g hg
    unfold gemsOfFlow at hg
    rw [if_neg hrep] at hg
    simp only [List.mem_singleton] at hg
    subst hg
    exact storeResource_claims h

/-- A claim of the requested AllocId by a different ONU on the flow's PON
makes validateFlow fail. -/
theorem validateFlow_false_of_alloc {gems allocs : Ledger} {f : Flow} {o1 : Nat}
    (hc : ridClaimed allocs (uint32OfInt32 f.accessIntfId) o1 f.allocId = true)
    (hne : o1 ≠ uint32OfInt32 f.onuId) :
    validateFlow gems allocs f = false := by
  unfold ridClaimed lookup2 at hc
  cases hp : alookup (uint32OfInt32 f.accessIntfId) allocs with
  | none => rw [hp] at hc; simp at hc
  | some onuMap =>
    rw [hp, Option.some_bind] at hc
    cases ho : alookup o1 onuMap with
    | none => rw [ho] at hc; simp at hc
    | some pm =>
      rw [ho] at hc
      simp only [Option.getD_some] at hc
      have hbad : allocBadCheck allocs f = true := by
        unfold allocBadCheck
        rw [hp]
        simp only [Option.getD_some]
        refine List.any_eq_true.mpr ⟨(o1, pm), alookup_mem ho, ?_⟩
        simpa [if_neg hne] using hc
      unfold validateFlow
      rw [hbad]
      simp

/-- A claim of one of the flow's GEM ports by a different ONU on the
flow's PON makes validateFlow fail. -/
theorem validateFlow_false_of_gem {gems allocs : Ledger} {f : Flow} {o1 : Nat} {g : Int}
    (hc : ridClaimed gems (uint32OfInt32 f.accessIntfId) o1 g = true)
    (hg : g ∈ gemsOfFlow f)
    (hne : o1 ≠ uint32OfInt32 f.onuId) :
    validateFlow gems allocs f = false := by
  unfold ridClaimed lookup2 at hc
  cases hp : alookup (uint32OfInt32 f.accessIntfId) gems with
  | none => rw [hp] at hc; simp at hc
  | some onuMap =>
    rw [hp, Option.some_bind] at hc
    cases ho : alookup o1 onuMap with
    | none => rw [ho] at hc; simp at hc
    | some pm =>
      rw [ho] at hc
      simp only [Option.getD_some] at hc
      have hconf : gemConflict f g = true := by
        unfold gemConflict
        exact List.any_eq_true.mpr ⟨g, hg, by simp⟩
      have hbad : gemBadCheck gems f = true := by
        unfold gemBadCheck
        rw [hp]
        simp only [Option.getD_some]
        refine List.any_eq_true.mpr ⟨(o1, pm), alookup_mem ho, ?_⟩
        rw [if_neg hne]
        rcases List.any_eq_true.mp hc with ⟨pte, hmem, hpte⟩
        refine List.any_eq_true.mpr ⟨pte, hmem, ?_⟩
        rcases List.any_eq_true.mp hpte with ⟨re, hre, hr⟩
        refine List.any_eq_true.mpr ⟨re, hre, ?_⟩
        have hre1 : re.1 = g := by simpa using hr
        rw [hre1]
        exact hconf
      unfold validateFlow
      rw [hbad]
      simp

theorem updateOnu_allocIDs (st : OltState) (p o : Nat) (g : Onu → Onu) :
    (updateOnu st p o g).allocIDs = st.allocIDs := rfl

theorem updateOnu_gemPortIDs (st : OltState) (p o : Nat) (g : Onu → Onu) :
    (updateOnu st p o g).gemPortIDs = st.gemPortIDs := rfl

/-- A flow on the per-ONU path that fails validateFlow is rejected with
the conflict error and both ledgers are left exactly as they were. -/
theorem flowAdd_validate_false
    (st : OltState) (f : Flow) (pon : Pon) (onu : Onu)
    (hacc : f.accessIntfId ≠ -1) (hmc : f.flowType ≠ "multicast")
    (hfind : getPonById st (uint32OfInt32 f.accessIntfId) = some pon)
    (hfindo : getOnuById pon (uint32OfInt32 f.onuId) = some onu)
    (hready : ¬(onu.internalState = .ponDisabled ∨ onu.internalState = .disabled))
    (hval : validateFlow st.gemPortIDs st.allocIDs f = false) :
    ∃ st', flowAdd st f = some (st', .errConflict) ∧
      st'.allocIDs = st.allocIDs ∧ st'.gemPortIDs = st.gemPortIDs := by
  have hfind2 : st.pons.find? (fun q => q.id == uint32OfInt32 f.accessIntfId) = some pon := hfind
  cases hEP : st.enablePerf with
  | true =>
    refine ⟨st, ?_, rfl, rfl⟩
    simp only [flowAdd, hEP, if_true, if_neg hacc, if_neg hmc, hfind, hfindo,
      if_neg hready, hval]
  | false =>
    by_cases hlen : onu.flows.length + 1 = 1
    · refine ⟨{updateOnu {st with flows := ainsert f.flowId f st.flows} pon.id onu.id
          (fun o => {o with flows := (o.flows ++ [f.flowId])}) with
          events := ((updateOnu {st with flows := ainsert f.flowId f st.flows} pon.id onu.id
            (fun o => {o with flows := (o.flows ++ [f.flowId])})).events ++
            [DeviceEvent.flowAddReceived onu.ponPortId onu.id])},
        ?_, rfl, rfl⟩
      simp [flowAdd, getPonById, hEP, if_neg hacc, if_neg hmc, hfind2, hfindo,
        if_neg hready, hlen, updateOnu_allocIDs, updateOnu_gemPortIDs, hval]
    · refine ⟨updateOnu {st with flows := ainsert f.flowId f st.flows} pon.id onu.id
          (fun o => {o with flows := (o.flows ++ [f.flowId])}), ?_, rfl, rfl⟩
      simp [flowAdd, getPonById, hEP, if_neg hacc, if_neg hmc, hfind2, hfindo,
        if_neg hready, hlen, updateOnu_allocIDs, updateOnu_gemPortIDs, hval]

/-- C1: if flow f1 of one ONU has been stored in the ledgers, a later
FlowAdd of flow f2 of a different ONU on the same PON that requests f1's
Alloc-ID, or any GEM port of f1 (including ports of a replicated flow),
fails with the resource-conflict error and leaves both ledgers exactly as
they were (validate-then-commit). -/
theorem C1_cross_onu_conflict_rejected
    (st : OltState) (f1 f2 : Flow) (A0 G0 : Ledger) (pon : Pon) (onu : Onu)
    (hA : storeAllocId A0 f1 = some st.allocIDs)
    (hG : storeGemPortIdByFlow G0 f1 = some st.gemPortIDs)
    (hpon : uint32OfInt32 f2.accessIntfId = uint32OfInt32 f1.accessIntfId)
    (honu : uint32OfInt32 f2.onuId ≠ uint32OfInt32 f1.onuId)
    (hacc : f2.accessIntfId ≠ -1) (hmc : f2.flowType ≠ "multicast")
    (hfind : getPonById st (uint32OfInt32 f2.accessIntfId) = some pon)
    (hfindo : getOnuById pon (uint32OfInt32 f2.onuId) = some onu)
    (hready : ¬(onu.internalState = .ponDisabled ∨ onu.internalState = .disabled))
    (hconf : f2.allocId = f1.allocId ∨ ∃ g, g ∈ gemsOfFlow f2 ∧ g ∈ gemsOfFlow f1) :
    ∃ st', flowAdd st f2 = some (st', .errConflict) ∧
      st'.allocIDs = st.allocIDs ∧ st'.gemPortIDs = st.gemPortIDs := by
  apply flowAdd_validate_false st f2 pon onu hacc hmc hfind hfindo hready
  rcases hconf with hal | ⟨g, hg2, hg1⟩
  · refine @validateFlow_false_of_alloc _ _ _ (uint32OfInt32 f1.onuId) ?_ (Ne.symm honu)
    rw [hpon, hal]
    exact storeResource_claims hA
  · refine @validateFlow_false_of_gem _ _ _ (uint32OfInt32 f1.onuId) g ?_ hg2 (Ne.symm honu)
    rw [hpon]
    exact storeGemPortIdByFlow_claims hG g hg1

/-- Witness for C1 at a concrete two-ONU state. -/
theorem C1_cross_onu_conflict_rejected_witness :
    ∃ st', flowAdd witState witFlow2 = some (st', .errConflict) ∧
      st'.allocIDs = witState.allocIDs ∧ st'.gemPortIDs = witState.gemPortIDs :=
  C1_cross_onu_conflict_rejected witState witFlow1 witFlow2 witLedger0 witLedger0
    witPon witOnu2 (by decide) (by decide) (by decide) (by decide) (by decide)
    (by decide) (by decide) (by decide) (by decide) (Or.inl (by decide))

theorem find?_updateFirst {α : Type} {p : α → Bool} {g : α → α} {l : List α} {x : α}
    (h : l.find? p = some x) (hg : p (g x) = true) :
    (updateFirst p g l).find? p = some (g x) := by
  induction l with
  | nil => simp at h
  | cons y tl ih =>
    by_cases hy : p y
    · rw [List.find?_cons_of_pos _ hy] at h
      simp only [Option.some.injEq] at h
      subst h
      simp [updateFirst, hy, List.find?_cons_of_pos _ hg]
    · rw [List.find?_cons_of_neg _ hy] at h
      simp [updateFirst, hy, List.find?_cons_of_neg _ hy, ih h]

/-- C5: a flow targeting an existing, non-multicast ONU whose internal
state is disabled or pon-disabled is rejected with the
device-not-ready error, without touching either ledger, any ONU state
(flow lists or channels) or the event stream. -/
theorem C5_flow_rejected_when_onu_down
    (st : OltState) (f : Flow) (pon : Pon) (onu : Onu)
    (hacc : f.accessIntfId ≠ -1) (hmc : f.flowType ≠ "multicast")
    (hfind : getPonById st (uint32OfInt32 f.accessIntfId) = some pon)
    (hfindo : getOnuById pon (uint32OfInt32 f.onuId) = some onu)
    (hdown : onu.internalState = .ponDisabled ∨ onu.internalState = .disabled) :
    ∃ st', flowAdd st f = some (st', .errOnuNotReady) ∧
      st'.allocIDs = st.allocIDs ∧ st'.gemPortIDs = st.gemPortIDs ∧
      st'.pons = st.pons ∧ st'.events = st.events := by
  have hfind2 : st.pons.find? (fun q => q.id == uint32OfInt32 f.accessIntfId) = some pon := hfind
  cases hEP : st.enablePerf with
  | true =>
    refine ⟨st, ?_, rfl, rfl, rfl, rfl⟩
    simp only [flowAdd, hEP, if_true, if_neg hacc, if_neg hmc, hfind, hfindo, if_pos hdown]
  | false =>
    refine ⟨{st with flows := ainsert f.flowId f st.flows}, ?_, rfl, rfl, rfl, rfl⟩
    simp [flowAdd, getPonById, hEP, if_neg hacc, if_neg hmc, hfind2, hfindo, hdown]

/-- Witness for C5 at a concrete state with a disabled ONU. -/
theorem C5_flow_rejected_when_onu_down_witness :
    ∃ st', flowAdd witStateDown witFlow2 = some (st', .errOnuNotReady) ∧
      st'.allocIDs = witStateDown.allocIDs ∧ st'.gemPortIDs = witStateDown.gemPortIDs ∧
      st'.pons = witStateDown.pons ∧ st'.events = witStateDown.events :=
  C5_flow_rejected_when_onu_down witStateDown witFlow2 {witPon with onus := [witOnu1, witOnu2Down]}
    witOnu2Down (by decide) (by decide) (by decide) (by decide) (Or.inr (by decide))

/-- Locating the updated PON and ONU after updateOnu: the PON is found at
its id with the ONU list rewritten, and the ONU is found at its id with
the update applied. -/
theorem getOnuAt_updateOnu (st : OltState) {pid oid : Nat} {pon : Pon} {onu : Onu}
    (g : Onu → Onu)
    (hp : getPonById st pid = some pon)
    (ho : getOnuById pon oid = some onu)
    (hid : (g onu).id = onu.id) :
    getPonById (updateOnu st pid oid g) pid =
      some {pon with onus := (updateFirst (fun o => o.id == oid) g pon.onus)} ∧
    getOnuById {pon with onus := (updateFirst (fun o => o.id == oid) g pon.onus)} oid =
      some (g onu) := by
  constructor
  · have hp2 : List.find? (fun q => q.id == pid) st.pons = some pon := hp
    have hpred := List.find?_some hp2
    unfold getPonById updateOnu
    exact find?_updateFirst hp2 hpred
  · have ho2 : List.find? (fun o => o.id == oid) pon.onus = some onu := ho
    have hpred := List.find?_some ho2
    unfold getOnuById
    refine find?_updateFirst ho2 ?_
    simp only at hpred ⊢
    simpa [hid] using hpred

/-- C6 counterexample: at a concrete two-ONU state, a FlowAdd that
validateFlow rejects with a resource conflict has nevertheless appended
the flow key to the target ONU flow list. -/
theorem C6_counterexample :
    (flowAdd witState witFlow2).map (fun r => (r.2, onuFlowsAt r.1 0 2)) =
      some (FlowAddResult.errConflict, [8]) := by
  rfl

theorem updateOnu_events (st : OltState) (p o : Nat) (g : Onu → Onu) :
    (updateOnu st p o g).events = st.events := rfl

theorem flowAddBookkeep_gemPortIDs (st : OltState) (f : Flow) (pon : Pon) (onu : Onu) :
    (flowAddBookkeep st f pon onu).gemPortIDs = st.gemPortIDs := by
  unfold flowAddBookkeep
  split <;> rfl

theorem flowAddBookkeep_allocIDs (st : OltState) (f : Flow) (pon : Pon) (onu : Onu) :
    (flowAddBookkeep st f pon onu).allocIDs = st.allocIDs := by
  unfold flowAddBookkeep
  split <;> rfl

theorem flowAddBookkeep_events (st : OltState) (f : Flow) (pon : Pon) (onu : Onu) :
    (flowAddBookkeep st f pon onu).events =
      (if onu.flows.length = 0 then
        st.events ++ [DeviceEvent.flowAddReceived onu.ponPortId onu.id]
      else st.events) := by
  unfold flowAddBookkeep
  by_cases h : onu.flows.length + 1 = 1
  · rw [if_pos h, if_pos (by omega)]
    rfl
  · rw [if_neg h, if_neg (by omega)]
    rfl

/-- Locating the target ONU after the bookkeeping stage. -/
theorem flowAddBookkeep_locate (st : OltState) (f : Flow) {pon : Pon} {onu : Onu}
    (hp : getPonById st pon.id = some pon) (ho : getOnuById pon onu.id = some onu) :
    getPonById (flowAddBookkeep st f pon onu) pon.id =
      some {pon with onus := (updateFirst (fun o => o.id == onu.id)
        (fun o => {o with flows := (o.flows ++ [f.flowId])}) pon.onus)} ∧
    getOnuById {pon with onus := (updateFirst (fun o => o.id == onu.id)
        (fun o => {o with flows := (o.flows ++ [f.flowId])}) pon.onus)} onu.id =
      some {onu with flows := (onu.flows ++ [f.flowId])} := by
  have hp2 : getPonById {st with flows := ainsert f.flowId f st.flows} pon.id = some pon := hp
  obtain ⟨h1, h2⟩ := getOnuAt_updateOnu {st with flows := ainsert f.flowId f st.flows}
    (fun o => {o with flows := (o.flows ++ [f.flowId])}) hp2 ho rfl
  refine ⟨?_, h2⟩
  unfold flowAddBookkeep
  split
  · exact h1
  · exact h1

/-- The complete per-ONU FlowAdd path under strict flow accounting, as a
single equation: bookkeeping first, then validation, then the two ledger
stores, then the enqueue. -/
theorem flowAdd_eq_strict (st : OltState) (f : Flow) (pon : Pon) (onu : Onu)
    (hEP : st.enablePerf = false)
    (hacc : f.accessIntfId ≠ -1) (hmc : f.flowType ≠ "multicast")
    (hfind : getPonById st (uint32OfInt32 f.accessIntfId) = some pon)
    (hfindo : getOnuById pon (uint32OfInt32 f.onuId) = some onu)
    (hready : ¬(onu.internalState = .ponDisabled ∨ onu.internalState = .disabled)) :
    flowAdd st f =
      (if validateFlow st.gemPortIDs st.allocIDs f = false then
        some (flowAddBookkeep st f pon onu, .errConflict)
      else
        (storeGemPortIdByFlow st.gemPortIDs f).bind (fun gems =>
          (storeAllocId st.allocIDs f).map (fun allocs =>
            (updateOnu {(flowAddBookkeep st f pon onu) with
                gemPortIDs := gems, allocIDs := allocs} pon.id onu.id
              (fun o => {o with channel := (o.channel ++ [OnuMsg.flowAdd pon.id onu.id f])}),
              .ok)))) := by
  have hfind2 : st.pons.find? (fun q => q.id == uint32OfInt32 f.accessIntfId) = some pon := hfind
  cases hval : validateFlow st.gemPortIDs st.allocIDs f with
  | false =>
    by_cases hlen : onu.flows.length + 1 = 1
    · simp [flowAdd, flowAddBookkeep, getPonById, hEP, if_neg hacc, if_neg hmc, hfind2,
        hfindo, if_neg hready, hlen, updateOnu_allocIDs, updateOnu_gemPortIDs, hval]
    · simp [flowAdd, flowAddBookkeep, getPonById, hEP, if_neg hacc, if_neg hmc, hfind2,
        hfindo, if_neg hready, hlen, updateOnu_allocIDs, updateOnu_gemPortIDs, hval]
  | true =>
    cases hg : storeGemPortIdByFlow st.gemPortIDs f with
    | none =>
      by_cases hlen : onu.flows.length + 1 = 1 <;>
        simp [flowAdd, flowAddBookkeep, getPonById, hEP, if_neg hacc, if_neg hmc, hfind2,
          hfindo, if_neg hready, hlen, updateOnu_allocIDs, updateOnu_gemPortIDs, hval, hg,
          flowAddBookkeep_gemPortIDs]
    | some gems =>
      cases ha : storeAllocId st.allocIDs f with
      | none =>
        by_cases hlen : onu.flows.length + 1 = 1 <;>
          simp [flowAdd, flowAddBookkeep, getPonById, hEP, if_neg hacc, if_neg hmc, hfind2,
            hfindo, if_neg hready, hlen, updateOnu_allocIDs, updateOnu_gemPortIDs, hval, hg, ha]
      | some allocs =>
        by_cases hlen : onu.flows.length + 1 = 1 <;>
          simp [flowAdd, flowAddBookkeep, getPonById, hEP, if_neg hacc, if_neg hmc, hfind2,
            hfindo, if_neg hready, hlen, updateOnu_allocIDs, updateOnu_gemPortIDs, hval, hg, ha]

/-- C6 (amended): under strict flow accounting, an accepted per-ONU flow
goes through the stages in the order: record in the device flow table and
append the flow key to the target ONU flow list (emitting the first-flow
event exactly when the list was empty), then validate against the
ledgers, then store both ledgers, then enqueue on the ONU channel.  A
flow rejected by ledger validation has therefore already been appended to
the ONU flow list, but is not stored in either ledger and not enqueued. -/
theorem C6_amended_add_order
    (st : OltState) (f : Flow) (pon : Pon) (onu : Onu) (gems allocs : Ledger)
    (hEP : st.enablePerf = false)
    (hacc : f.accessIntfId ≠ -1) (hmc : f.flowType ≠ "multicast")
    (hfind : getPonById st (uint32OfInt32 f.accessIntfId) = some pon)
    (hfindo : getOnuById pon (uint32OfInt32 f.onuId) = some onu)
    (hready : ¬(onu.internalState = .ponDisabled ∨ onu.internalState = .disabled))
    (hG : storeGemPortIdByFlow st.gemPortIDs f = some gems)
    (hA : storeAllocId st.allocIDs f = some allocs) :
    ∃ st', flowAdd st f = some (st',
        if validateFlow st.gemPortIDs st.allocIDs f = true then .ok else .errConflict) ∧
      onuFlowsAt st' pon.id onu.id = onu.flows ++ [f.flowId] ∧
      st'.events = (if onu.flows.length = 0 then
        st.events ++ [DeviceEvent.flowAddReceived onu.ponPortId onu.id] else st.events) ∧
      (validateFlow st.gemPortIDs st.allocIDs f = true →
        st'.gemPortIDs = gems ∧ st'.allocIDs = allocs ∧
        onuChannelAt st' pon.id onu.id = onu.channel ++ [OnuMsg.flowAdd pon.id onu.id f]) ∧
      (validateFlow st.gemPortIDs st.allocIDs f = false →
        st'.gemPortIDs = st.gemPortIDs ∧ st'.allocIDs = st.allocIDs ∧
        onuChannelAt st' pon.id onu.id = onu.channel) := by
  have hfind2 : st.pons.find? (fun q => q.id == uint32OfInt32 f.accessIntfId) = some pon := hfind
  have hpid : pon.id = uint32OfInt32 f.accessIntfId := by
    have := List.find?_some hfind2
    simpa using this
  have hfindo2 : pon.onus.find? (fun o => o.id == uint32OfInt32 f.onuId) = some onu := hfindo
  have hoid : onu.id = uint32OfInt32 f.onuId := by
    have := List.find?_some hfindo2
    simpa using this
  have hfindP : getPonById st pon.id = some pon := by rw [hpid]; exact hfind
  have hfindoP : getOnuById pon onu.id = some onu := by rw [hoid]; exact hfindo
  obtain ⟨hloc1, hloc2⟩ := flowAddBookkeep_locate st f hfindP hfindoP
  have heq := flowAdd_eq_strict st f pon onu hEP hacc hmc hfind hfindo hready
  cases hval : validateFlow st.gemPortIDs st.allocIDs f with
  | false =>
    rw [hval] at heq
    simp only [if_pos rfl] at heq
    refine ⟨flowAddBookkeep st f pon onu, ?_, ?_, flowAddBookkeep_events st f pon onu, ?_, ?_⟩
    · rw [heq]
      simp
    · unfold onuFlowsAt
      rw [hloc1, Option.some_bind, hloc2]
      rfl
    · intro hcontra
      exact absurd hcontra (by simp)
    · intro _
      refine ⟨flowAddBookkeep_gemPortIDs st f pon onu, flowAddBookkeep_allocIDs st f pon onu, ?_⟩
      unfold onuChannelAt
      rw [hloc1, Option.some_bind, hloc2]
      rfl
  | true =>
    rw [hval] at heq
    simp only [Bool.true_eq_false, if_false, hG, Option.some_bind, hA, Option.map_some'] at heq
    have hfindD : getPonById {(flowAddBookkeep st f pon onu) with
        gemPortIDs := gems, allocIDs := allocs} pon.id =
        some {pon with onus := (updateFirst (fun o => o.id == onu.id)
          (fun o => {o with flows := (o.flows ++ [f.flowId])}) pon.onus)} := hloc1
    obtain ⟨hE1, hE2⟩ := getOnuAt_updateOnu {(flowAddBookkeep st f pon onu) with
        gemPortIDs := gems, allocIDs := allocs}
      (fun o => {o with channel := (o.channel ++ [OnuMsg.flowAdd pon.id onu.id f])})
      hfindD hloc2 rfl
    refine ⟨updateOnu {(flowAddBookkeep st f pon onu) with
        gemPortIDs := gems, allocIDs := allocs} pon.id onu.id
      (fun o => {o with channel := (o.channel ++ [OnuMsg.flowAdd pon.id onu.id f])}),
      ?_, ?_, ?_, ?_, ?_⟩
    · rw [heq]
      simp
    · unfold onuFlowsAt
      rw [hE1, Option.some_bind, hE2]
      rfl
    · rw [updateOnu_events]
      exact flowAddBookkeep_events st f pon onu
    · intro _
      refine ⟨rfl, rfl, ?_⟩
      unfold onuChannelAt
      rw [hE1, Option.some_bind, hE2]
      rfl
    · intro hcontra
      exact absurd hcontra (by simp)

/-- Witness for the amended C6 at the concrete two-ONU state: the flow is
valid there, so the full accept pipeline runs. -/
theorem C6_amended_add_order_witness :
    ∃ st', flowAdd witState witFlow1 = some (st',
        if validateFlow witState.gemPortIDs witState.allocIDs witFlow1 = true then .ok
        else .errConflict) ∧
      onuFlowsAt st' witPon.id witOnu1.id = witOnu1.flows ++ [witFlow1.flowId] ∧
      st'.events = (if witOnu1.flows.length = 0 then
        witState.events ++ [DeviceEvent.flowAddReceived witOnu1.ponPortId witOnu1.id]
        else witState.events) ∧
      (validateFlow witState.gemPortIDs witState.allocIDs witFlow1 = true →
        st'.gemPortIDs = [(0, [(1, [(16, [(50, [(7, true)])])]), (2, [])])] ∧
        st'.allocIDs = [(0, [(1, [(16, [(100, [(7, true)])])]), (2, [])])] ∧
        onuChannelAt st' witPon.id witOnu1.id =
          witOnu1.channel ++ [OnuMsg.flowAdd witPon.id witOnu1.id witFlow1]) ∧
      (validateFlow witState.gemPortIDs witState.allocIDs witFlow1 = false →
        st'.gemPortIDs = witState.gemPortIDs ∧ st'.allocIDs = witState.allocIDs ∧
        onuChannelAt st' witPon.id witOnu1.id = witOnu1.channel) :=
  C6_amended_add_order witState witFlow1 witPon witOnu1
    [(0, [(1, [(16, [(50, [(7, true)])])]), (2, [])])]
    [(0, [(1, [(16, [(100, [(7, true)])])]), (2, [])])]
    (by decide) (by decide) (by decide) (by decide) (by decide) (by decide)
    (by decide) (by decide)

/-- The tail stage of FlowRemove never touches the ledgers. -/
theorem flowRemoveTail_ledgers (st : OltState) (f : Flow) :
    (flowRemoveTail st f).1.gemPortIDs = st.gemPortIDs ∧
    (flowRemoveTail st f).1.allocIDs = st.allocIDs := by
  unfold flowRemoveTail
  split
  · exact ⟨rfl, rfl⟩
  · split
    · exact ⟨rfl, rfl⟩
    · split
      · exact ⟨rfl, rfl⟩
      · exact ⟨rfl, rfl⟩

/-- C7: FlowRemove frees both ledgers unconditionally before anything
else, even for a flow that was never validated or stored; under strict
flow bookkeeping a removal whose flow ID matches no stored flow returns
NotFound, with the ledger frees already applied and nothing else
changed. -/
theorem C7_remove_frees_unconditionally (st : OltState) (f : Flow) :
    ((flowRemove st f).1.gemPortIDs = freeGemPortId st.gemPortIDs f ∧
     (flowRemove st f).1.allocIDs = freeAllocId st.allocIDs f) ∧
    (st.enablePerf = false → alookup f.flowId st.flows = none →
      (flowRemove st f).2 = .errNotFound ∧
      (flowRemove st f).1.flows = st.flows ∧
      (flowRemove st f).1.pons = st.pons ∧
      (flowRemove st f).1.events = st.events) := by
  constructor
  · simp only [flowRemove]
    split
    · exact flowRemoveTail_ledgers _ f
    · split
      · exact ⟨rfl, rfl⟩
      · split
        · split
          · exact ⟨rfl, rfl⟩
          · split
            · exact ⟨rfl, rfl⟩
            · exact flowRemoveTail_ledgers _ f
        · exact flowRemoveTail_ledgers _ f
  · intro hEP hlook
    simp only [flowRemove, hEP, Bool.false_eq_true, if_false, hlook]
    exact ⟨trivial, trivial, trivial, trivial⟩

/-- Witness for C7 at a concrete state with no stored flows. -/
theorem C7_remove_frees_unconditionally_witness :
    (flowRemove witState witFlow1).1.gemPortIDs = freeGemPortId witState.gemPortIDs witFlow1 ∧
    (flowRemove witState witFlow1).1.allocIDs = freeAllocId witState.allocIDs witFlow1 ∧
    (flowRemove witState witFlow1).2 = .errNotFound ∧
    (flowRemove witState witFlow1).1.flows = witState.flows :=
  ⟨(C7_remove_frees_unconditionally witState witFlow1).1.1,
   (C7_remove_frees_unconditionally witState witFlow1).1.2,
   ((C7_remove_frees_unconditionally witState witFlow1).2 rfl (by decide)).1,
   ((C7_remove_frees_unconditionally witState witFlow1).2 rfl (by decide)).2.1⟩

theorem processOltMessages_nil (st : OltState) : processOltMessages st [] = some (st, []) := rfl

theorem processOltMessages_cons (st : OltState) (m : Msg) (rest : List Msg) :
    processOltMessages st (m :: rest) =
      (processOltMessage st m).bind (fun r1 =>
        (processOltMessages r1.1 rest).map (fun r2 => (r2.1, r1.2 ++ r2.2))) := by
  cases h1 : processOltMessage st m with
  | none => simp [processOltMessages, h1]
  | some r1 =>
    obtain ⟨st1, t1⟩ := r1
    cases h2 : processOltMessages st1 rest with
    | none => simp [processOltMessages, h1, h2]
    | some r2 => simp [processOltMessages, h1, h2]

/-- C8: the OLT InternalState transition function is total — firing an
event whose (state, event) pair is not among the declared transitions
yields an error value and leaves the state unchanged — and the dispatch
loop treats that error as non-fatal: an OLT indication message is always
processed to completion, emitting its indication, whatever the current
state. -/
theorem C8_internal_state_totality :
    (∀ (s : OltIntState) (e : OltTx),
      (∀ t ∈ oltTransitions, t.1 = e → s ∉ t.2.1) →
      fireOltEvent s e = none ∧ fireOltTotal s e = s) ∧
    (∀ (st : OltState) (oper : UpDown),
      ∃ st', processOltMessage st (.oltIndication oper) = some (st', [.oltInd oper]) ∧
        st'.internalState = fireOltTotal st.internalState
          (match oper with | .up => .enable | .down => .disable)) := by
  constructor
  · intro s e h
    have hnone : fireOltEvent s e = none := by
      unfold fireOltEvent
      have hfind : oltTransitions.find?
          (fun t => t.1 == e && t.2.1.any (fun x => x == s)) = none := by
        rw [List.find?_eq_none]
        intro t ht
        by_cases h1 : t.1 = e
        · have hs := h t ht h1
          simp only [Bool.and_eq_true, not_and]
          intro _
          simp only [List.any_eq_true, not_exists, not_and]
          intro x hx
          simp only [beq_iff_eq]
          intro hxs
          exact hs (hxs ▸ hx)
        · simp [h1]
      rw [hfind]
      rfl
    refine ⟨hnone, ?_⟩
    unfold fireOltTotal
    rw [hnone]
    rfl
  · intro st oper
    cases oper
    · exact ⟨_, rfl, rfl⟩
    · exact ⟨_, rfl, rfl⟩

/-- Witness for C8: the disable event in the created state is undeclared,
is reported as an error and leaves the state unchanged. -/
theorem C8_internal_state_totality_witness :
    fireOltEvent .created .disable = none ∧ fireOltTotal .created .disable = .created :=
  C8_internal_state_totality.1 .created .disable (by decide)

/-- C2: the dispatch loop consumes each enqueued message exactly once and
emits its indications in exactly the enqueue order: the trace of a
concatenated queue is the concatenation of the traces, and on the example
queue OltUp, Nni0Up, Pon0Up the stream carries the OLT, NNI and PON
indications in that exact order. -/
theorem C2_dispatch_order :
    (∀ (st : OltState) (ms1 ms2 : List Msg),
      processOltMessages st (ms1 ++ ms2) =
        (processOltMessages st ms1).bind (fun r1 =>
          (processOltMessages r1.1 ms2).map (fun r2 => (r2.1, r1.2 ++ r2.2)))) ∧
    ((processOltMessages dispState
        [.oltIndication .up, .nniIndication .up 0, .ponIndication .up 0]).map Prod.snd =
      some [.oltInd .up, .nniOperInd 0 .up 25000, .ponIntfInd 0 .up, .ponOperInd 0 .up]) := by
  constructor
  · intro st ms1 ms2
    induction ms1 generalizing st with
    | nil =>
      rw [List.nil_append, processOltMessages_nil, Option.some_bind]
      cases h : processOltMessages st ms2 with
      | none => rfl
      | some r =>
        obtain ⟨a, b⟩ := r
        simp
    | cons m rest ih =>
      rw [List.cons_append, processOltMessages_cons, processOltMessages_cons]
      cases h1 : processOltMessage st m with
      | none => rfl
      | some r1 =>
        obtain ⟨st1, t1⟩ := r1
        simp only [Option.some_bind]
        rw [ih st1]
        cases h2 : processOltMessages st1 rest with
        | none => rfl
        | some r2 =>
          obtain ⟨st2, t2⟩ := r2
          simp only [Option.some_bind, Option.map_some']
          cases h3 : processOltMessages st2 ms2 with
          | none => rfl
          | some r3 =>
            obtain ⟨st3, t3⟩ := r3
            simp [List.append_assoc]
  · rfl

/-- Every PON-level value of the ledger rebuilt by InitOlt from a cleared
ledger is an empty ONU map. -/
theorem initOltLedger_values_nil (n : Nat) :
    ∀ x ∈ initOltLedger n ([] : Ledger), x.2 = ([] : OnuMap) := by
  induction n with
  | zero =>
    intro x hx
    simp [initOltLedger] at hx
  | succ k ih =>
    intro x hx
    unfold initOltLedger at hx ih
    rw [List.range_succ, List.foldl_append] at hx
    simp only [List.foldl_cons, List.foldl_nil] at hx
    rcases mem_ainsert hx with h | h
    · exact ih x h
    · rw [h]

/-- The ledgers rebuilt by InitOlt after clearAllResources hold no
resource entries. -/
theorem hasNoRids_initOltLedger (n : Nat) :
    hasNoRids (initOltLedger n ([] : Ledger)) = true := by
  unfold hasNoRids
  rw [List.all_eq_true]
  intro x hx
  rw [initOltLedger_values_nil n x hx]
  rfl

/-- C4: a completed hard reboot (RestartOLT from a non-enabled state that
returns no error) leaves both resource ledgers without any entries and
changes the HeartbeatCheck signature, provided the wall clock advanced
and did not wrap the 32-bit signature space. -/
theorem C4_hard_reboot_clears_and_resigns
    (st st' : OltState) (t1 t2 : Nat) (e : Bool)
    (hsig : st.signature = t1 % 4294967296)
    (hstate : st.internalState ≠ .enabled)
    (ht1 : t1 < t2) (ht2 : t2 < t1 + 4294967296)
    (hrun : restartOLT st t2 = some (st', e)) (hok : e = false) :
    hasNoRids st'.allocIDs = true ∧ hasNoRids st'.gemPortIDs = true ∧
    heartbeatCheck st' ≠ heartbeatCheck st := by
  cases hs : st.internalState with
  | enabled => exact absurd hs hstate
  | created =>
    have hdel : fireOltEvent st.internalState .delete = none := by rw [hs]; decide
    simp only [restartOLT, hdel, Option.some.injEq, Prod.mk.injEq] at hrun
    rw [hok] at hrun
    exact absurd hrun.2 (by decide)
  | initialized =>
    have hdel : fireOltEvent st.internalState .delete = none := by rw [hs]; decide
    simp only [restartOLT, hdel, Option.some.injEq, Prod.mk.injEq] at hrun
    rw [hok] at hrun
    exact absurd hrun.2 (by decide)
  | deleted =>
    have hdel : fireOltEvent st.internalState .delete = none := by rw [hs]; decide
    simp only [restartOLT, hdel, Option.some.injEq, Prod.mk.injEq] at hrun
    rw [hok] at hrun
    exact absurd hrun.2 (by decide)
  | disabled =>
    have hdel : fireOltEvent st.internalState .delete = some .deleted := by rw [hs]; decide
    simp only [restartOLT, hdel] at hrun
    cases hecs : st.enableContextSet with
    | false =>
      simp only [clearAllResources, hecs] at hrun
      simp at hrun
    | true =>
      have htx : fireOltEvent OltIntState.deleted OltTx.txInit = some .initialized := by decide
      simp only [clearAllResources, hecs, htx, initOlt] at hrun
      cases hnn : st.nnis with
      | nil =>
        rw [hnn] at hrun
        simp at hrun
      | cons nni rest =>
        rw [hnn] at hrun
        simp only [Bool.true_eq_false, Bool.false_eq_true, if_false, Option.map_some',
          Option.some.injEq, Prod.mk.injEq] at hrun
        obtain ⟨hst, he⟩ := hrun
        subst hst
        refine ⟨hasNoRids_initOltLedger _, hasNoRids_initOltLedger _, ?_⟩
        unfold heartbeatCheck
        rw [hsig]
        simp only
        omega

/-- Witness for C4: a concrete hard reboot from the disabled state. -/
theorem C4_hard_reboot_clears_and_resigns_witness :
    hasNoRids witRebootResult.allocIDs = true ∧ hasNoRids witRebootResult.gemPortIDs = true ∧
    heartbeatCheck witRebootResult ≠ heartbeatCheck witRebootState :=
  C4_hard_reboot_clears_and_resigns witRebootState witRebootResult 100 105 false rfl
    (by decide) (by decide) (by decide) (by decide) rfl

/-- The activated (PON, ONU) pair holds a fresh empty map afterwards. -/
theorem activateOnuLedger_self {L L' : Ledger} {p o : Nat}
    (h : activateOnuLedger L p o = some L') :
    lookup2 L' p o = some [] := by
  unfold activateOnuLedger at h
  cases hp : alookup p L with
  | none => rw [hp] at h; exact absurd h (by simp)
  | some onuMap =>
    rw [hp, Option.map_some'] at h
    simp only [Option.some.injEq] at h
    subst h
    unfold lookup2
    rw [alookup_ainsert_self, Option.some_bind, alookup_ainsert_self]

/-- Every other (PON, ONU) pair of the ledger is untouched by
ActivateOnu. -/
theorem activateOnuLedger_frame {L L' : Ledger} {p o : Nat}
    (h : activateOnuLedger L p o = some L') (p2 o2 : Nat) (hne : ¬(p2 = p ∧ o2 = o)) :
    lookup2 L' p2 o2 = lookup2 L p2 o2 := by
  unfold activateOnuLedger at h
  cases hp : alookup p L with
  | none => rw [hp] at h; exact absurd h (by simp)
  | some onuMap =>
    rw [hp, Option.map_some'] at h
    simp only [Option.some.injEq] at h
    subst h
    unfold lookup2
    by_cases hpp : p2 = p
    · subst hpp
      have hoo : o2 ≠ o := fun ho => hne ⟨rfl, ho⟩
      rw [alookup_ainsert_self, Option.some_bind, alookup_ainsert_ne _ _ hoo, hp,
        Option.some_bind]
    · rw [alookup_ainsert_ne _ _ hpp]

/-- C10: after a completed ActivateOnu call for (PON, ONU), both ledgers
hold a fresh empty sub-map for that pair — any previously recorded flow
references for it are discarded — while every other (PON, ONU) pair of
both ledgers is unchanged. -/
theorem C10_activate_onu_resets_pair (st st' : OltState) (p o sn : Nat)
    (hrun : activateOnu st p o sn = some st') :
    lookup2 st'.allocIDs p o = some [] ∧ lookup2 st'.gemPortIDs p o = some [] ∧
    ∀ p2 o2, ¬(p2 = p ∧ o2 = o) →
      lookup2 st'.allocIDs p2 o2 = lookup2 st.allocIDs p2 o2 ∧
      lookup2 st'.gemPortIDs p2 o2 = lookup2 st.gemPortIDs p2 o2 := by
  cases h1 : activateOnuLedger st.allocIDs p o with
  | none => simp [activateOnu, h1] at hrun
  | some allocs =>
    cases h2 : activateOnuLedger st.gemPortIDs p o with
    | none => simp [activateOnu, h1, h2] at hrun
    | some gems =>
      cases h3 : getPonById {st with allocIDs := allocs, gemPortIDs := gems} p with
      | none => simp [activateOnu, h1, h2, h3] at hrun
      | some pon =>
        cases h4 : getOnuBySn pon sn with
        | none => simp [activateOnu, h1, h2, h3, h4] at hrun
        | some onu =>
          simp only [activateOnu, h1, h2, h3, h4, Option.some.injEq] at hrun
          subst hrun
          refine ⟨activateOnuLedger_self h1, activateOnuLedger_self h2, ?_⟩
          intro p2 o2 hne
          exact ⟨activateOnuLedger_frame h1 p2 o2 hne, activateOnuLedger_frame h2 p2 o2 hne⟩

/-- Witness for C10: activating ONU 2 on PON 0 of the concrete state. -/
theorem C10_activate_onu_resets_pair_witness :
    lookup2 witActivated.allocIDs 0 2 = some [] ∧
    lookup2 witActivated.gemPortIDs 0 2 = some [] ∧
    ∀ p2 o2, ¬(p2 = 0 ∧ o2 = 2) →
      lookup2 witActivated.allocIDs p2 o2 = lookup2 witState.allocIDs p2 o2 ∧
      lookup2 witActivated.gemPortIDs p2 o2 = lookup2 witState.gemPortIDs p2 o2 :=
  C10_activate_onu_resets_pair witState witActivated 0 2 12 (by decide)

/-- Freeing a flow removes it from every flow set of the ledger. -/
theorem freeResource_not_in (fid : Nat) (L : Ledger) :
    flowInLedger fid (freeResource fid L) = false := by
  unfold flowInLedger freeResource
  rw [Bool.eq_false_iff]
  intro hany
  rcases List.any_eq_true.mp hany with ⟨pe, hpe, h1⟩
  rcases List.mem_map.mp hpe with ⟨pe0, -, rfl⟩
  rcases List.any_eq_true.mp h1 with ⟨oe, hoe, h2⟩
  rcases List.mem_map.mp hoe with ⟨oe0, -, rfl⟩
  rcases List.any_eq_true.mp h2 with ⟨pte, hpte, h3⟩
  rcases List.mem_map.mp hpte with ⟨pte0, -, rfl⟩
  rcases List.any_eq_true.mp h3 with ⟨re, hre, h4⟩
  rcases List.mem_filterMap.mp hre with ⟨re0, -, hkeep⟩
  simp only [Option.map_eq_some'] at hkeep
  rcases hkeep with ⟨s2, hfr, hre0⟩
  unfold freeRidEntry at hfr
  by_cases hemp : re0.2.isEmpty
  · rw [if_pos hemp] at hfr
    simp only [Option.some.injEq] at hfr
    subst hfr
    rw [← hre0] at h4
    rcases List.any_eq_true.mp h4 with ⟨fe, hfe, -⟩
    rw [List.isEmpty_iff] at hemp
    rw [hemp] at hfe
    simp at hfe
  · rw [if_neg hemp] at hfr
    by_cases hemp2 : (aerase fid re0.2).isEmpty
    · rw [if_pos hemp2] at hfr
      exact absurd hfr (by simp)
    · rw [if_neg hemp2] at hfr
      simp only [Option.some.injEq] at hfr
      subst hfr
      rw [← hre0] at h4
      have := anyKey_aerase_self fid re0.2
      rw [h4] at this
      exact absurd this (by simp)

/-- A flow absent from the ledger stays absent across a free of another
flow. -/
theorem freeResource_preserves_absent {fid g : Nat} {L : Ledger}
    (h : flowInLedger fid L = false) :
    flowInLedger fid (freeResource g L) = false := by
  unfold flowInLedger at h ⊢
  rw [Bool.eq_false_iff] at h ⊢
  intro hany
  apply h
  rcases List.any_eq_true.mp hany with ⟨pe, hpe, h1⟩
  rcases List.mem_map.mp hpe with ⟨pe0, hpe0, rfl⟩
  refine List.any_eq_true.mpr ⟨pe0, hpe0, ?_⟩
  rcases List.any_eq_true.mp h1 with ⟨oe, hoe, h2⟩
  rcases List.mem_map.mp hoe with ⟨oe0, hoe0, rfl⟩
  refine List.any_eq_true.mpr ⟨oe0, hoe0, ?_⟩
  rcases List.any_eq_true.mp h2 with ⟨pte, hpte, h3⟩
  rcases List.mem_map.mp hpte with ⟨pte0, hpte0, rfl⟩
  refine List.any_eq_true.mpr ⟨pte0, hpte0, ?_⟩
  rcases List.any_eq_true.mp h3 with ⟨re, hre, h4⟩
  rcases List.mem_filterMap.mp hre with ⟨re0, hre0m, hkeep⟩
  simp only [Option.map_eq_some'] at hkeep
  rcases hkeep with ⟨s2, hfr, hre1⟩
  refine List.any_eq_true.mpr ⟨re0, hre0m, ?_⟩
  rcases List.any_eq_true.mp h4 with ⟨fe, hfe, h5⟩
  refine List.any_eq_true.mpr ⟨fe, ?_, h5⟩
  rw [← hre1] at hfe
  unfold freeRidEntry at hfr
  by_cases hemp : re0.2.isEmpty
  · rw [if_pos hemp] at hfr
    simp only [Option.some.injEq] at hfr
    rw [hfr]
    exact hfe
  · rw [if_neg hemp] at hfr
    by_cases hemp2 : (aerase g re0.2).isEmpty
    · rw [if_pos hemp2] at hfr
      exact absurd hfr (by simp)
    · rw [if_neg hemp2] at hfr
      simp only [Option.some.injEq] at hfr
      rw [← hfr] at hfe
      exact mem_aerase hfe

theorem ainsert_isEmpty_false {α β : Type} [DecidableEq α] (k : α) (v : β) (m : AMap α β) :
    (ainsert k v m).isEmpty = false := by
  cases m with
  | nil => rfl
  | cons hd tl =>
    by_cases h : hd.1 = k <;> simp [ainsert, h]

/-- A flow absent from the ledger stays absent across a store of a
different flow. -/
theorem storeResource_preserves_absent {L L' : Ledger} {p onu port : Nat} {rid : Int}
    {g fid : Nat}
    (h : storeResource L p onu port rid g = some L')
    (hg : g ≠ fid)
    (habs : flowInLedger fid L = false) :
    flowInLedger fid L' = false := by
  unfold storeResource at h
  cases hp : alookup p L with
  | none => rw [hp, Option.none_bind] at h; exact absurd h (by simp)
  | some onuMap =>
    rw [hp, Option.some_bind] at h
    cases ho : alookup onu onuMap with
    | none => rw [ho] at h; exact absurd h (by simp)
    | some portMap =>
      rw [ho, Option.map_some'] at h
      simp only [Option.some.injEq] at h
      subst h
      unfold flowInLedger at habs ⊢
      rw [Bool.eq_false_iff] at habs ⊢
      intro hany
      apply habs
      have chain : ∀ {pe : Nat × OnuMap}, pe ∈ L →
          (pe.2.any (fun oe => oe.2.any (fun pte => pte.2.any (fun re =>
            re.2.any (fun fe => fe.1 == fid))))) = true →
          (L.any (fun pe2 => pe2.2.any (fun oe => oe.2.any (fun pte => pte.2.any (fun re =>
            re.2.any (fun fe => fe.1 == fid)))))) = true := by
        intro pe hpe hin
        exact List.any_eq_true.mpr ⟨pe, hpe, hin⟩
      rcases List.any_eq_true.mp hany with ⟨pe, hpe, h1⟩
      rcases mem_ainsert hpe with hmem | heq
      · exact chain hmem h1
      · subst heq
        simp only at h1
        rcases List.any_eq_true.mp h1 with ⟨oe, hoe, h2⟩
        rcases mem_ainsert hoe with hmem | heq
        · exact chain (alookup_mem hp) (List.any_eq_true.mpr ⟨oe, hmem, h2⟩)
        · subst heq
          simp only at h2
          rcases List.any_eq_true.mp h2 with ⟨pte, hpte, h3⟩
          rcases mem_ainsert hpte with hmem | heq
          · exact chain (alookup_mem hp)
              (List.any_eq_true.mpr ⟨(onu, portMap), alookup_mem ho,
                List.any_eq_true.mpr ⟨pte, hmem, h3⟩⟩)
          · subst heq
            simp only at h3
            rcases List.any_eq_true.mp h3 with ⟨re, hre, h4⟩
            rcases mem_ainsert hre with hmem | heq
            · cases hpt : alookup port portMap with
              | none => rw [hpt] at hmem; simp at hmem
              | some rm =>
                rw [hpt] at hmem
                exact chain (alookup_mem hp)
                  (List.any_eq_true.mpr ⟨(onu, portMap), alookup_mem ho,
                    List.any_eq_true.mpr ⟨(port, rm), alookup_mem hpt,
                      List.any_eq_true.mpr ⟨re, hmem, h4⟩⟩⟩)
            · subst heq
              simp only at h4
              rcases List.any_eq_true.mp h4 with ⟨fe, hfe, h5⟩
              rcases mem_ainsert hfe with hmem | heq
              · cases hpt : alookup port portMap with
                | none =>
                  rw [hpt] at hmem
                  simp only [Option.getD_none, alookup] at hmem
                  simp at hmem
                | some rm =>
                  rw [hpt] at hmem
                  simp only [Option.getD_some] at hmem
                  cases hr : alookup rid rm with
                  | none => rw [hr] at hmem; simp at hmem
                  | some fs =>
                    rw [hr] at hmem
                    exact chain (alookup_mem hp)
                      (List.any_eq_true.mpr ⟨(onu, portMap), alookup_mem ho,
                        List.any_eq_true.mpr ⟨(port, rm), alookup_mem hpt,
                          List.any_eq_true.mpr ⟨(rid, fs), alookup_mem hr,
                            List.any_eq_true.mpr ⟨fe, hmem, h5⟩⟩⟩⟩)
              · rw [heq] at h5
                simp only [beq_iff_eq] at h5
                exact absurd h5 hg

/-- A successful store keeps every resource-entry flow set non-empty. -/
theorem storeResource_nonempty {L L' : Ledger} {p onu port : Nat} {rid : Int} {fid : Nat}
    (h : storeResource L p onu port rid fid = some L')
    (hinv : allRidsNonempty L = true) :
    allRidsNonempty L' = true := by
  unfold storeResource at h
  cases hp : alookup p L with
  | none => rw [hp, Option.none_bind] at h; exact absurd h (by simp)
  | some onuMap =>
    rw [hp, Option.some_bind] at h
    cases ho : alookup onu onuMap with
    | none => rw [ho] at h; exact absurd h (by simp)
    | some portMap =>
      rw [ho, Option.map_some'] at h
      simp only [Option.some.injEq] at h
      subst h
      unfold allRidsNonempty at hinv ⊢
      have honuMap := List.all_eq_true.mp hinv _ (alookup_mem hp)
      simp only at honuMap
      have hportMap := List.all_eq_true.mp honuMap _ (alookup_mem ho)
      simp only at hportMap
      refine all_ainsert hinv ?_
      simp only
      refine all_ainsert honuMap ?_
      simp only
      refine all_ainsert hportMap ?_
      simp only
      refine all_ainsert ?_ ?_
      · cases hpt : alookup port portMap with
        | none => rfl
        | some rm =>
          have := List.all_eq_true.mp hportMap _ (alookup_mem hpt)
          simpa using this
      · simp only
        rw [ainsert_isEmpty_false]
        rfl

/-- A free keeps every surviving resource-entry flow set non-empty. -/
theorem freeResource_nonempty {L : Ledger} (fid : Nat)
    (hinv : allRidsNonempty L = true) :
    allRidsNonempty (freeResource fid L) = true := by
  unfold allRidsNonempty at hinv ⊢
  unfold freeResource
  rw [List.all_eq_true]
  intro pe hpe
  rcases List.mem_map.mp hpe with ⟨pe0, hpe0, rfl⟩
  have h1 := List.all_eq_true.mp hinv _ hpe0
  simp only at h1 ⊢
  rw [List.all_eq_true]
  intro oe hoe
  rcases List.mem_map.mp hoe with ⟨oe0, hoe0, rfl⟩
  have h2 := List.all_eq_true.mp h1 _ hoe0
  simp only at h2 ⊢
  rw [List.all_eq_true]
  intro pte hpte
  rcases List.mem_map.mp hpte with ⟨pte0, hpte0, rfl⟩
  have h3 := List.all_eq_true.mp h2 _ hpte0
  simp only at h3 ⊢
  rw [List.all_eq_true]
  intro re hre
  rcases List.mem_filterMap.mp hre with ⟨re0, hre0, hkeep⟩
  have h4 := List.all_eq_true.mp h3 _ hre0
  simp only at h4
  simp only [Option.map_eq_some'] at hkeep
  rcases hkeep with ⟨s2, hfr, hre1⟩
  unfold freeRidEntry at hfr
  rw [if_neg (by simpa using h4)] at hfr
  by_cases hemp2 : (aerase fid re0.2).isEmpty
  · rw [if_pos hemp2] at hfr
    exact absurd hfr (by simp)
  · rw [if_neg hemp2] at hfr
    simp only [Option.some.injEq] at hfr
    rw [← hre1, ← hfr]
    simpa using hemp2

theorem allRidsNonempty_of_hasNoRids {L : Ledger} (h : hasNoRids L = true) :
    allRidsNonempty L = true := by
  unfold hasNoRids at h
  unfold allRidsNonempty
  rw [List.all_eq_true] at h ⊢
  intro pe hpe
  have h1 := h pe hpe
  simp only at h1 ⊢
  rw [List.all_eq_true] at h1 ⊢
  intro oe hoe
  have h2 := h1 oe hoe
  simp only at h2 ⊢
  rw [List.all_eq_true] at h2 ⊢
  intro pte hpte
  have h3 := h2 pte hpte
  simp only at h3 ⊢
  rw [List.isEmpty_iff] at h3
  rw [h3]
  rfl

theorem flow_absent_of_hasNoRids {L : Ledger} (h : hasNoRids L = true) (fid : Nat) :
    flowInLedger fid L = false := by
  unfold hasNoRids at h
  unfold flowInLedger
  rw [Bool.eq_false_iff]
  intro hany
  rcases List.any_eq_true.mp hany with ⟨pe, hpe, h1⟩
  have g1 := List.all_eq_true.mp h pe hpe
  rcases List.any_eq_true.mp h1 with ⟨oe, hoe, h2⟩
  have g2 := List.all_eq_true.mp g1 oe hoe
  rcases List.any_eq_true.mp h2 with ⟨pte, hpte, h3⟩
  have g3 := List.all_eq_true.mp g2 pte hpte
  rcases List.any_eq_true.mp h3 with ⟨re, hre, -⟩
  simp only [List.isEmpty_iff] at g3
  rw [g3] at hre
  simp at hre

theorem hasNoRids_of_nonempty_and_absent {L : Ledger}
    (hne : allRidsNonempty L = true)
    (habs : ∀ fid, flowInLedger fid L = false) :
    hasNoRids L = true := by
  unfold hasNoRids
  unfold allRidsNonempty at hne
  rw [List.all_eq_true] at hne ⊢
  intro pe hpe
  have h1 := List.all_eq_true.mp (hne pe hpe)
  simp only at h1 ⊢
  rw [List.all_eq_true]
  intro oe hoe
  have h2 := List.all_eq_true.mp (h1 oe hoe)
  simp only at h2 ⊢
  rw [List.all_eq_true]
  intro pte hpte
  have h3 := List.all_eq_true.mp (h2 pte hpte)
  simp only at h3 ⊢
  cases hcase : pte.2 with
  | nil => rfl
  | cons re rest =>
    exfalso
    have h4 := h3 re (by rw [hcase]; exact List.mem_cons_self _ _)
    simp only [Bool.not_eq_true'] at h4
    cases hfs : re.2 with
    | nil => rw [hfs] at h4; exact absurd h4 (by simp)
    | cons fe fes =>
      have : flowInLedger fe.1 L = true := by
        unfold flowInLedger
        refine List.any_eq_true.mpr ⟨pe, hpe, ?_⟩
        refine List.any_eq_true.mpr ⟨oe, hoe, ?_⟩
        refine List.any_eq_true.mpr ⟨pte, hpte, ?_⟩
        refine List.any_eq_true.mpr ⟨re, by rw [hcase]; exact List.mem_cons_self _ _, ?_⟩
        refine List.any_eq_true.mpr ⟨fe, by rw [hfs]; exact List.mem_cons_self _ _, ?_⟩
        simp
      rw [habs fe.1] at this
      exact absurd this (by simp)

/-- After running a sequence in which every store of flow f is followed
by a free of f, flow f is absent from the final ledger whenever it was
absent initially or some free of f still lies ahead. -/
theorem runLedgerOps_absent (f : Nat) (ops : List LedgerOp) :
    ∀ (L L' : Ledger), runLedgerOps L ops = some L' →
    balancedFor f ops →
    (flowInLedger f L = false ∨ (LedgerOp.free f) ∈ ops) →
    flowInLedger f L' = false := by
  induction ops with
  | nil =>
    intro L L' hrun hbal hd
    simp only [runLedgerOps, Option.some.injEq] at hrun
    subst hrun
    rcases hd with hd | hd
    · exact hd
    · simp at hd
  | cons op rest ih =>
    intro L L' hrun hbal hd
    obtain ⟨hbal1, hbal2⟩ := hbal
    cases op with
    | store p onu port rid g =>
      simp only [runLedgerOps] at hrun
      cases hs : storeResource L p onu port rid g with
      | none => rw [hs, Option.none_bind] at hrun; exact absurd hrun (by simp)
      | some L1 =>
        rw [hs, Option.some_bind] at hrun
        by_cases hgf : g = f
        · subst hgf
          have hmem := hbal1 (by simp [isStoreOf])
          exact ih L1 L' hrun hbal2 (Or.inr hmem)
        · rcases hd with hd | hd
          · exact ih L1 L' hrun hbal2 (Or.inl (storeResource_preserves_absent hs hgf hd))
          · rcases List.mem_cons.mp hd with hd1 | hd1
            · exact absurd hd1.symm (by simp)
            · exact ih L1 L' hrun hbal2 (Or.inr hd1)
    | free g =>
      simp only [runLedgerOps] at hrun
      by_cases hgf : g = f
      · subst hgf
        exact ih _ L' hrun hbal2 (Or.inl (freeResource_not_in _ L))
      · rcases hd with hd | hd
        · exact ih _ L' hrun hbal2 (Or.inl (freeResource_preserves_absent hd))
        · rcases List.mem_cons.mp hd with hd1 | hd1
          · exact absurd hd1.symm (by simp [hgf])
          · exact ih _ L' hrun hbal2 (Or.inr hd1)

/-- Running any operation sequence keeps all resource-entry flow sets
non-empty. -/
theorem runLedgerOps_nonempty (ops : List LedgerOp) :
    ∀ (L L' : Ledger), runLedgerOps L ops = some L' →
    allRidsNonempty L = true → allRidsNonempty L' = true := by
  induction ops with
  | nil =>
    intro L L' hrun hinv
    simp only [runLedgerOps, Option.some.injEq] at hrun
    subst hrun
    exact hinv
  | cons op rest ih =>
    intro L L' hrun hinv
    cases op with
    | store p onu port rid g =>
      simp only [runLedgerOps] at hrun
      cases hs : storeResource L p onu port rid g with
      | none => rw [hs, Option.none_bind] at hrun; exact absurd hrun (by simp)
      | some L1 =>
        rw [hs, Option.some_bind] at hrun
        exact ih L1 L' hrun (storeResource_nonempty hs hinv)
    | free g =>
      simp only [runLedgerOps] at hrun
      exact ih _ L' hrun (freeResource_nonempty g hinv)

/-- C3: starting from a ledger with no resource entries (the state after
the PON and ONU levels are initialized), a run of store and free
operations in which every store of a flow ID is matched by a later free
of that flow ID — as is the case when every store is matched by exactly
one free — ends with no resource entries in the ledger. -/
theorem C3_balanced_ops_leave_no_entries (ops : List LedgerOp) (L0 L' : Ledger)
    (hempty : hasNoRids L0 = true)
    (hrun : runLedgerOps L0 ops = some L')
    (hbal : ∀ f, balancedFor f ops) :
    hasNoRids L' = true := by
  refine hasNoRids_of_nonempty_and_absent
    (runLedgerOps_nonempty ops L0 L' hrun (allRidsNonempty_of_hasNoRids hempty)) ?_
  intro fid
  exact runLedgerOps_absent fid ops L0 L' hrun (hbal fid)
    (Or.inl (flow_absent_of_hasNoRids hempty fid))

/-- Witness for C3: one store matched by one free returns the concrete
ledger to a state with no resource entries. -/
theorem C3_balanced_ops_leave_no_entries_witness :
    hasNoRids [(0, [(1, [(0, ([] : RidMap))])])] = true :=
  C3_balanced_ops_leave_no_entries witOps witLedgerInit
    [(0, [(1, [(0, ([] : RidMap))])])] (by decide) (by decide)
    (by
      intro f
      by_cases h : (7 : Nat) = f <;>
        simp [witOps, balancedFor, isStoreOf, h])

theorem alookup_map_values {α β γ : Type} [DecidableEq α] (h : β → γ) (k : α)
    (m : AMap α β) :
    alookup k (m.map (fun pe => (pe.1, h pe.2))) = (alookup k m).map h := by
  induction m with
  | nil => rfl
  | cons hd tl ih =>
    obtain ⟨a, b⟩ := hd
    by_cases hk : a = k
    · simp [alookup, hk]
    · simp [alookup, hk, ih]

/-- A resource claim surviving a free existed before the free. -/
theorem freeResource_claims_mono {L : Ledger} {fid : Nat} {p o : Nat} {r : Int}
    (h : ridClaimed (freeResource fid L) p o r = true) :
    ridClaimed L p o r = true := by
  unfold ridClaimed lookup2 freeResource at h
  rw [alookup_map_values] at h
  cases hp : alookup p L with
  | none => rw [hp] at h; simp at h
  | some om =>
    rw [hp, Option.map_some', Option.some_bind, alookup_map_values] at h
    cases ho : alookup o om with
    | none => rw [ho] at h; simp at h
    | some pm =>
      rw [ho, Option.map_some'] at h
      simp only [Option.getD_some] at h
      unfold ridClaimed lookup2
      rw [hp, Option.some_bind, ho]
      simp only [Option.getD_some]
      rcases List.any_eq_true.mp h with ⟨pte, hpte, h1⟩
      rcases List.mem_map.mp hpte with ⟨pte0, hpte0, rfl⟩
      refine List.any_eq_true.mpr ⟨pte0, hpte0, ?_⟩
      simp only at h1
      rcases List.any_eq_true.mp h1 with ⟨re, hre, h2⟩
      rcases List.mem_filterMap.mp hre with ⟨re0, hre0, hkeep⟩
      simp only [Option.map_eq_some'] at hkeep
      rcases hkeep with ⟨s2, -, hre1⟩
      refine List.any_eq_true.mpr ⟨re0, hre0, ?_⟩
      rw [← hre1] at h2
      exact h2

/-- A resource claim after ActivateOnu existed before and is not at the
freshly reset pair. -/
theorem activateOnuLedger_claims_elim {L L' : Ledger} {p o : Nat}
    (h : activateOnuLedger L p o = some L') {p2 o2 : Nat} {r : Int}
    (hc : ridClaimed L' p2 o2 r = true) :
    ridClaimed L p2 o2 r = true := by
  by_cases hpair : p2 = p ∧ o2 = o
  · obtain ⟨rfl, rfl⟩ := hpair
    have := activateOnuLedger_self h
    unfold ridClaimed at hc
    rw [this] at hc
    simp at hc
  · have := activateOnuLedger_frame h p2 o2 hpair
    unfold ridClaimed at hc ⊢
    rw [this] at hc
    exact hc

/-- ActivateOnu keeps all flow sets non-empty (it only installs an empty
sub-map). -/
theorem activateOnuLedger_nonempty {L L' : Ledger} {p o : Nat}
    (h : activateOnuLedger L p o = some L')
    (hinv : allRidsNonempty L = true) :
    allRidsNonempty L' = true := by
  unfold activateOnuLedger at h
  cases hp : alookup p L with
  | none => rw [hp] at h; exact absurd h (by simp)
  | some onuMap =>
    rw [hp, Option.map_some'] at h
    simp only [Option.some.injEq] at h
    subst h
    unfold allRidsNonempty at hinv ⊢
    have honuMap := List.all_eq_true.mp hinv _ (alookup_mem hp)
    simp only at honuMap
    refine all_ainsert hinv ?_
    simp only
    refine all_ainsert honuMap ?_
    rfl

/-- A claim present after a store was present before, or is the claim
the store just made. -/
theorem storeResource_claims_elim {L L' : Ledger} {p onu port : Nat} {rid : Int}
    {fid : Nat} {p2 o2 : Nat} {r2 : Int}
    (h : storeResource L p onu port rid fid = some L')
    (hc : ridClaimed L' p2 o2 r2 = true) :
    ridClaimed L p2 o2 r2 = true ∨ (p2 = p ∧ o2 = onu ∧ r2 = rid) := by
  unfold storeResource at h
  cases hp : alookup p L with
  | none => rw [hp, Option.none_bind] at h; exact absurd h (by simp)
  | some onuMap =>
    rw [hp, Option.some_bind] at h
    cases ho : alookup onu onuMap with
    | none => rw [ho] at h; exact absurd h (by simp)
    | some portMap =>
      rw [ho, Option.map_some'] at h
      simp only [Option.some.injEq] at h
      subst h
      unfold ridClaimed lookup2 at hc ⊢
      by_cases hpp : p2 = p
      · subst hpp
        rw [alookup_ainsert_self, Option.some_bind] at hc
        rw [hp, Option.some_bind]
        by_cases hoo : o2 = onu
        · subst hoo
          rw [alookup_ainsert_self] at hc
          rw [ho]
          simp only [Option.getD_some] at hc ⊢
          rcases List.any_eq_true.mp hc with ⟨pte, hpte, h1⟩
          rcases mem_ainsert hpte with hmem | heq
          · exact Or.inl (List.any_eq_true.mpr ⟨pte, hmem, h1⟩)
          · subst heq
            simp only at h1
            rcases anyKey_ainsert_elim h1 with h2 | h2
            · cases hpt : alookup port portMap with
              | none => rw [hpt] at h2; simp at h2
              | some rm =>
                rw [hpt] at h2
                simp only [Option.getD_some] at h2
                exact Or.inl (List.any_eq_true.mpr ⟨(port, rm), alookup_mem hpt, h2⟩)
            · exact Or.inr ⟨by trivial, by trivial, h2⟩
        · rw [alookup_ainsert_ne _ _ hoo] at hc
          exact Or.inl hc
      · rw [alookup_ainsert_ne _ _ hpp] at hc
        exact Or.inl hc

/-- A claim present after the replicated-store fold was present before,
or is one of the GEM claims the fold made. -/
theorem foldStores_claims_elim {p onu port : Nat} {fid : Nat} {lst : List Nat}
    {p2 o2 : Nat} {r2 : Int} :
    ∀ {L L' : Ledger},
    lst.foldl (fun acc gem => acc.bind (fun L2 =>
      storeGemPortId L2 p onu port (int32OfUInt32 gem) fid)) (some L) = some L' →
    ridClaimed L' p2 o2 r2 = true →
    ridClaimed L p2 o2 r2 = true ∨ (p2 = p ∧ o2 = onu ∧ ∃ n ∈ lst, r2 = int32OfUInt32 n) := by
  induction lst with
  | nil =>
    intro L L' h hc
    simp only [List.foldl_nil, Option.some.injEq] at h
    subst h
    exact Or.inl hc
  | cons x rest ih =>
    intro L L' h hc
    simp only [List.foldl_cons, Option.some_bind] at h
    cases hs : storeGemPortId L p onu port (int32OfUInt32 x) fid with
    | none => rw [hs] at h; rw [foldStores_none] at h; exact absurd h (by simp)
    | some L1 =>
      rw [hs] at h
      rcases ih h hc with h1 | ⟨hp2, ho2, n, hn, hr⟩
      · rcases storeResource_claims_elim hs h1 with h2 | ⟨hp2, ho2, hr⟩
        · exact Or.inl h2
        · exact Or.inr ⟨hp2, ho2, x, List.mem_cons_self _ _, hr⟩
      · exact Or.inr ⟨hp2, ho2, n, List.mem_cons_of_mem _ hn, hr⟩

/-- A claim present after storeGemPortIdByFlow was present before, or is
one of the flow's GEM claims at the flow's own (PON, ONU). -/
theorem storeGemPortIdByFlow_claims_elim {G G' : Ledger} {f : Flow} {p2 o2 : Nat} {r2 : Int}
    (h : storeGemPortIdByFlow G f = some G')
    (hc : ridClaimed G' p2 o2 r2 = true) :
    ridClaimed G p2 o2 r2 = true ∨
      (p2 = uint32OfInt32 f.accessIntfId ∧ o2 = uint32OfInt32 f.onuId ∧
        r2 ∈ gemsOfFlow f) := by
  unfold storeGemPortIdByFlow at h
  by_cases hrep : f.replicateFlow
  · rw [if_pos hrep] at h
    rcases foldStores_claims_elim h hc with h1 | ⟨hp2, ho2, n, hn, hr⟩
    · exact Or.inl h1
    · refine Or.inr ⟨hp2, ho2, ?_⟩
      unfold gemsOfFlow
      rw [if_pos hrep, hr]
      exact List.mem_map.mpr ⟨n, hn, rfl⟩
  · rw [if_neg hrep] at h
    rcases storeResource_claims_elim h hc with h1 | ⟨hp2, ho2, hr⟩
    · exact Or.inl h1
    · refine Or.inr ⟨hp2, ho2, ?_⟩
      unfold gemsOfFlow
      rw [if_neg hrep, hr]
      exact List.mem_singleton.mpr rfl

/-- The replicated-store fold keeps all flow sets non-empty. -/
theorem foldStores_nonempty {p onu port : Nat} {fid : Nat} {lst : List Nat} :
    ∀ {L L' : Ledger},
    lst.foldl (fun acc gem => acc.bind (fun L2 =>
      storeGemPortId L2 p onu port (int32OfUInt32 gem) fid)) (some L) = some L' →
    allRidsNonempty L = true → allRidsNonempty L' = true := by
  induction lst with
  | nil =>
    intro L L' h hinv
    simp only [List.foldl_nil, Option.some.injEq] at h
    subst h
    exact hinv
  | cons x rest ih =>
    intro L L' h hinv
    simp only [List.foldl_cons, Option.some_bind] at h
    cases hs : storeGemPortId L p onu port (int32OfUInt32 x) fid with
    | none => rw [hs] at h; rw [foldStores_none] at h; exact absurd h (by simp)
    | some L1 =>
      rw [hs] at h
      exact ih h (storeResource_nonempty hs hinv)

/-- storeGemPortIdByFlow keeps all flow sets non-empty. -/
theorem storeGemPortIdByFlow_nonempty {G G' : Ledger} {f : Flow}
    (h : storeGemPortIdByFlow G f = some G')
    (hinv : allRidsNonempty G = true) :
    allRidsNonempty G' = true := by
  unfold storeGemPortIdByFlow at h
  by_cases hrep : f.replicateFlow
  · rw [if_pos hrep] at h
    exact foldStores_nonempty h hinv
  · rw [if_neg hrep] at h
    exact storeResource_nonempty h hinv

/-- A valid flow has no AllocId claim by any other ONU on its PON. -/
theorem validateFlow_true_no_alloc {gems allocs : Ledger} {f : Flow}
    (hv : validateFlow gems allocs f = true) {o1 : Nat}
    (hne : o1 ≠ uint32OfInt32 f.onuId) :
    ridClaimed allocs (uint32OfInt32 f.accessIntfId) o1 f.allocId = false := by
  cases hB : ridClaimed allocs (uint32OfInt32 f.accessIntfId) o1 f.allocId with
  | false => rfl
  | true =>
    rw [validateFlow_false_of_alloc hB hne] at hv
    exact absurd hv (by simp)

/-- A valid flow has none of its GEM ports claimed by any other ONU on
its PON. -/
theorem validateFlow_true_no_gem {gems allocs : Ledger} {f : Flow}
    (hv : validateFlow gems allocs f = true) {o1 : Nat} {g : Int}
    (hg : g ∈ gemsOfFlow f)
    (hne : o1 ≠ uint32OfInt32 f.onuId) :
    ridClaimed gems (uint32OfInt32 f.accessIntfId) o1 g = false := by
  cases hB : ridClaimed gems (uint32OfInt32 f.accessIntfId) o1 g with
  | false => rfl
  | true =>
    rw [validateFlow_false_of_gem hB hg hne] at hv
    exact absurd hv (by simp)

theorem ledgerStep_preserves (s s' : Ledger × Ledger)
    (h : LedgerStep s s') (hinv : LedgerInv s) : LedgerInv s' := by
  obtain ⟨hne1, hne2, hdup1, hdup2⟩ := hinv
  cases h with
  | addFlow gems allocs gems' allocs' f hv hG hA =>
    refine ⟨storeGemPortIdByFlow_nonempty hG hne1, storeResource_nonempty hA hne2, ?_, ?_⟩
    · intro p o1 o2 r honu h1 h2
      rcases storeGemPortIdByFlow_claims_elim hG h1 with hc1 | ⟨hp1, ho1, hr1⟩
      · rcases storeGemPortIdByFlow_claims_elim hG h2 with hc2 | ⟨hp2, ho2, hr2⟩
        · exact hdup1 p o1 o2 r honu hc1 hc2
        · subst hp2
          subst ho2
          have hno := validateFlow_true_no_gem hv hr2 honu
          rw [hno] at hc1
          exact absurd hc1 (by simp)
      · subst hp1
        subst ho1
        rcases storeGemPortIdByFlow_claims_elim hG h2 with hc2 | ⟨-, ho2, -⟩
        · have hno := validateFlow_true_no_gem hv hr1 (Ne.symm honu)
          rw [hno] at hc2
          exact absurd hc2 (by simp)
        · exact honu ho2.symm
    · intro p o1 o2 r honu h1 h2
      rcases storeResource_claims_elim hA h1 with hc1 | ⟨hp1, ho1, hr1⟩
      · rcases storeResource_claims_elim hA h2 with hc2 | ⟨hp2, ho2, hr2⟩
        · exact hdup2 p o1 o2 r honu hc1 hc2
        · subst hp2
          subst ho2
          subst hr2
          have hno := validateFlow_true_no_alloc hv honu
          rw [hno] at hc1
          exact absurd hc1 (by simp)
      · subst hp1
        subst ho1
        subst hr1
        rcases storeResource_claims_elim hA h2 with hc2 | ⟨-, ho2, -⟩
        · have hno := validateFlow_true_no_alloc hv (Ne.symm honu)
          rw [hno] at hc2
          exact absurd hc2 (by simp)
        · exact honu ho2.symm
  | removeFlow gems allocs f =>
    refine ⟨freeResource_nonempty _ hne1, freeResource_nonempty _ hne2, ?_, ?_⟩
    · intro p o1 o2 r honu h1 h2
      exact hdup1 p o1 o2 r honu (freeResource_claims_mono h1) (freeResource_claims_mono h2)
    · intro p o1 o2 r honu h1 h2
      exact hdup2 p o1 o2 r honu (freeResource_claims_mono h1) (freeResource_claims_mono h2)
  | clear gems allocs =>
    refine ⟨rfl, rfl, ?_, ?_⟩ <;>
      · intro p o1 o2 r honu h1 h2
        simp [ridClaimed, lookup2, alookup] at h1
  | activate gems allocs gems' allocs' p o hA hG =>
    refine ⟨activateOnuLedger_nonempty hG hne1, activateOnuLedger_nonempty hA hne2, ?_, ?_⟩
    · intro p2 o1 o2 r honu h1 h2
      exact hdup1 p2 o1 o2 r honu (activateOnuLedger_claims_elim hG h1)
        (activateOnuLedger_claims_elim hG h2)
    · intro p2 o1 o2 r honu h1 h2
      exact hdup2 p2 o1 o2 r honu (activateOnuLedger_claims_elim hA h1)
        (activateOnuLedger_claims_elim hA h2)

/-- C9: the ledger invariant — every resource entry has a non-empty flow
set, and no Alloc-ID or GEM-port-ID belongs to two different ONUs on the
same PON — holds in the initial empty state and is maintained across
every sequence of validated stores, frees, clears and ActivateOnu
resets. -/
theorem C9_ledger_invariants_maintained :
    LedgerInv (([] : Ledger), ([] : Ledger)) ∧
    ∀ s s', LedgerInv s → Relation.ReflTransGen LedgerStep s s' → LedgerInv s' := by
  constructor
  · refine ⟨rfl, rfl, ?_, ?_⟩ <;>
      · intro p o1 o2 r honu h1 h2
        simp [ridClaimed, lookup2, alookup] at h1
  · intro s s' hinv hreach
    induction hreach with
    | refl => exact hinv
    | tail hab hbc ih => exact ledgerStep_preserves _ _ hbc ih

/-- Witness for C9: a validated FlowAdd store from the freshly activated
two-ONU ledgers preserves the invariant. -/
theorem C9_ledger_invariants_maintained_witness :
    LedgerInv (witGems1, witAllocs1) := by
  have hbase : ∀ p o r, ridClaimed witLedger0 p o r = false := by
    intro p o r
    unfold ridClaimed lookup2 witLedger0
    by_cases h0 : (0 : Nat) = p
    · subst h0
      simp only [alookup, if_pos rfl, Option.some_bind]
      by_cases h1 : (1 : Nat) = o
      · subst h1
        simp [alookup]
      · by_cases h2 : (2 : Nat) = o
        · subst h2
          simp [alookup, h1]
        · simp [alookup, h1, h2]
    · simp [alookup, h0]
  have hinv0 : LedgerInv (witLedger0, witLedger0) := by
    refine ⟨by decide, by decide, ?_, ?_⟩ <;>
      · intro p o1 o2 r honu h1 h2
        rw [hbase] at h1
        exact absurd h1 (by simp)
  exact C9_ledger_invariants_maintained.2 (witLedger0, witLedger0) (witGems1, witAllocs1)
    hinv0
    (Relation.ReflTransGen.single
      (LedgerStep.addFlow witLedger0 witLedger0 witGems1 witAllocs1 witFlow1
        (by decide) (by decide) (by decide)))

end BBSim
